import Mathlib

/-!
Verification development for the pyzsync repository (src/pyzsync.py and
src/pyrsync2.py): a shallow embedding of the rolling-checksum delta engine
(weak/rolling checksums, MD5 strong hash, signature generation, the
zsync-style blueprint scan and the rsync-style streaming delta, patching),
together with theorems settling the frozen specification claims.

Bytes are modelled as `Nat` values (all actual stream bytes are < 256, but
none of the arithmetic depends on that bound).  Python's unbounded signed
integers are modelled as `Int`; Python's bitwise operations on them use the
infinite two's-complement convention, embedded below as `pyAnd`/`pyOr`.
-/

set_option maxRecDepth 100000

namespace PySync

/-- Python bitwise NOT on unbounded two's-complement integers: `~x = -x - 1`. -/
def pyNot (x : Int) : Int := -x - 1

/-- Python bitwise AND on unbounded two's-complement integers.  Non-negative
values use plain `Nat.land`; a negative value is the complement of the
non-negative `pyNot` image, and `x &&& ~m` on naturals is `x - (x &&& m)`. -/
def pyAnd (x y : Int) : Int :=
  if 0 ≤ x then
    if 0 ≤ y then Int.ofNat (x.toNat &&& y.toNat)
    else Int.ofNat (x.toNat - (x.toNat &&& (pyNot y).toNat))
  else
    if 0 ≤ y then Int.ofNat (y.toNat - (y.toNat &&& (pyNot x).toNat))
    else pyNot (Int.ofNat ((pyNot x).toNat ||| (pyNot y).toNat))

/-- Python bitwise OR on unbounded two's-complement integers,
via De Morgan: `x | y = ~(~x & ~y)`. -/
def pyOr (x y : Int) : Int := pyNot (pyAnd (pyNot x) (pyNot y))

/-- Python left shift on unbounded integers: `x << n = x * 2^n`. -/
def pyShl (x : Int) (n : Nat) : Int := x * ((2 ^ n : Nat) : Int)

/-- The `(a, b)` accumulator pair computed by the loop
`for i in range(l): a += data[i]; b += (l - i) * data[i]`
inside `weakchecksum` (identical in pyzsync.py and pyrsync2.py). -/
def weakAB (data : List Nat) : Nat × Nat :=
  (List.range data.length).foldl
    (fun p i => (p.1 + data.getD i 0, p.2 + (data.length - i) * data.getD i 0))
    (0, 0)

/-- `weakchecksum(data)` from pyzsync.py (lines 149-158) and pyrsync2.py
(lines 312-322): returns `((b << 16) | a, a, b)`. -/
def weakchecksum (data : List Nat) : Int × Int × Int :=
  let a : Int := ((weakAB data).1 : Nat)
  let b : Int := ((weakAB data).2 : Nat)
  (pyOr (pyShl b 16) a, a, b)

/-- `rollingchecksum(removed, new, a, b, blocksize)` from pyzsync.py
(lines 112-120) and pyrsync2.py (lines 301-309):
`a -= removed - new`, then `b -= removed * blocksize - a` (the updated `a`),
returning `((b << 16) | a, a, b)`. -/
def rollingchecksum (removed new : Nat) (a b : Int) (blocksize : Nat) :
    Int × Int × Int :=
  let a := a - ((removed : Int) - (new : Int))
  let b := b - ((removed : Int) * (blocksize : Int) - a)
  (pyOr (pyShl b 16) a, a, b)

/-- Fuel-driven body of `chunksOf`; the fuel only serves structural
termination and is irrelevant once it is at least the list length. -/
def chunksAux (B : Nat) : Nat → List Nat → List (List Nat)
  | _, [] => []
  | 0, _ :: _ => []
  | fuel + 1, x :: xs => (x :: xs).take B :: chunksAux B fuel ((x :: xs).drop B)

/-- Consecutive non-overlapping blocks of size `B` drawn from the front of a
byte list; the final block may be shorter.  This mirrors the repeated
`instream.read(blocksize)` loop shape shared by the signature generator and
the scanners (`read` returns an empty result exactly when the data is
exhausted or `B = 0`). -/
def chunksOf (B : Nat) (data : List Nat) : List (List Nat) :=
  if B = 0 then [] else chunksAux B data.length data

/-! ## MD5 (hashlib.md5, used as the strong hash)

A faithful implementation of RFC 1321 over byte lists, so that the strong
hashes appearing in signatures and match confirmation are the real digests
computed by `hashlib.md5(...).digest()`. -/

/-- 2^32, the word modulus of MD5. -/
def m32 : Nat := 4294967296

/-- The 64 sine-derived MD5 round constants `K[i] = floor(abs(sin(i+1)) * 2^32)`. -/
def md5K : List Nat :=
  [0xd76aa478, 0xe8c7b756, 0x242070db, 0xc1bdceee,
   0xf57c0faf, 0x4787c62a, 0xa8304613, 0xfd469501,
   0x698098d8, 0x8b44f7af, 0xffff5bb1, 0x895cd7be,
   0x6b901122, 0xfd987193, 0xa679438e, 0x49b40821,
   0xf61e2562, 0xc040b340, 0x265e5a51, 0xe9b6c7aa,
   0xd62f105d, 0x02441453, 0xd8a1e681, 0xe7d3fbc8,
   0x21e1cde6, 0xc33707d6, 0xf4d50d87, 0x455a14ed,
   0xa9e3e905, 0xfcefa3f8, 0x676f02d9, 0x8d2a4c8a,
   0xfffa3942, 0x8771f681, 0x6d9d6122, 0xfde5380c,
   0xa4beea44, 0x4bdecfa9, 0xf6bb4b60, 0xbebfbc70,
   0x289b7ec6, 0xeaa127fa, 0xd4ef3085, 0x04881d05,
   0xd9d4d039, 0xe6db99e5, 0x1fa27cf8, 0xc4ac5665,
   0xf4292244, 0x432aff97, 0xab9423a7, 0xfc93a039,
   0x655b59c3, 0x8f0ccc92, 0xffeff47d, 0x85845dd1,
   0x6fa87e4f, 0xfe2ce6e0, 0xa3014314, 0x4e0811a1,
   0xf7537e82, 0xbd3af235, 0x2ad7d2bb, 0xeb86d391]

/-- The per-round left-rotation amounts of MD5. -/
def md5S : List Nat :=
  [7, 12, 17, 22, 7, 12, 17, 22, 7, 12, 17, 22, 7, 12, 17, 22,
   5, 9, 14, 20, 5, 9, 14, 20, 5, 9, 14, 20, 5, 9, 14, 20,
   4, 11, 16, 23, 4, 11, 16, 23, 4, 11, 16, 23, 4, 11, 16, 23,
   6, 10, 15, 21, 6, 10, 15, 21, 6, 10, 15, 21, 6, 10, 15, 21]

/-- 32-bit left rotation. -/
def rotl32 (x c : Nat) : Nat := ((x <<< c) ||| (x >>> (32 - c))) % m32

/-- MD5 padding: append `0x80`, zero bytes up to 56 mod 64, then the
64-bit little-endian bit length. -/
def md5Pad (msg : List Nat) : List Nat :=
  let bitLen := (msg.length * 8) % (2 ^ 64)
  let zeros := (56 + 64 - (msg.length + 1) % 64) % 64
  msg ++ [0x80] ++ List.replicate zeros 0 ++
    (List.range 8).map (fun i => bitLen >>> (8 * i) % 256)

/-- One of the 64 MD5 rounds, acting on the register quadruple. -/
def md5Round (M : Nat → Nat) (st : Nat × Nat × Nat × Nat) (i : Nat) :
    Nat × Nat × Nat × Nat :=
  let A := st.1
  let B := st.2.1
  let C := st.2.2.1
  let D := st.2.2.2
  let F :=
    if i < 16 then (B &&& C) ||| (((m32 - 1) - B) &&& D)
    else if i < 32 then (D &&& B) ||| (((m32 - 1) - D) &&& C)
    else if i < 48 then B ^^^ C ^^^ D
    else C ^^^ (B ||| ((m32 - 1) - D))
  let g :=
    if i < 16 then i
    else if i < 32 then (5 * i + 1) % 16
    else if i < 48 then (3 * i + 5) % 16
    else (7 * i) % 16
  let F2 := (F + A + md5K.getD i 0 + M g) % m32
  (D, (B + rotl32 F2 (md5S.getD i 0)) % m32, B, C)

/-- Process one 64-byte chunk: split into 16 little-endian words, run the
64 rounds, and add the result into the running state mod 2^32. -/
def md5Chunk (st : Nat × Nat × Nat × Nat) (chunk : List Nat) :
    Nat × Nat × Nat × Nat :=
  let M : Nat → Nat := fun g =>
    chunk.getD (4 * g) 0 + 256 * chunk.getD (4 * g + 1) 0 +
    65536 * chunk.getD (4 * g + 2) 0 + 16777216 * chunk.getD (4 * g + 3) 0
  let r := (List.range 64).foldl (md5Round M) st
  ((st.1 + r.1) % m32, (st.2.1 + r.2.1) % m32,
   (st.2.2.1 + r.2.2.1) % m32, (st.2.2.2 + r.2.2.2) % m32)

/-- Serialize a 32-bit word as 4 little-endian bytes. -/
def le4 (x : Nat) : List Nat :=
  [x % 256, x / 256 % 256, x / 65536 % 256, x / 16777216 % 256]

/-- `hashlib.md5(msg).digest()`: the 16-byte MD5 digest of a byte list. -/
def md5 (msg : List Nat) : List Nat :=
  let f := (chunksOf 64 (md5Pad msg)).foldl md5Chunk
    (0x67452301, 0xefcdab89, 0x98badcfe, 0x10325476)
  le4 f.1 ++ le4 f.2.1 ++ le4 f.2.2.1 ++ le4 f.2.2.2

/-- Fuel-driven body of `block_checksums`. -/
def block_checksumsAux (B : Nat) : Nat → List Nat → List (Int × List Nat)
  | _, [] => []
  | 0, _ :: _ => []
  | fuel + 1, x :: xs =>
    ((weakchecksum ((x :: xs).take B)).1, md5 ((x :: xs).take B)) ::
      block_checksumsAux B fuel ((x :: xs).drop B)

/-- `block_checksums(instream, blocksize)` from pyzsync.py (lines 101-110),
identical to `blockchecksums` in pyrsync2.py (lines 269-278): the generator
of `(weakchecksum(read)[0], md5(read).digest())` pairs, one per
`read(blocksize)` result, stopping when a read comes back empty (which with
`blocksize = 0` is immediately). -/
def block_checksums (B : Nat) (data : List Nat) : List (Int × List Nat) :=
  if B = 0 then [] else block_checksumsAux B data.length data

/-! ## Streams and Python runtime errors -/

/-- A readable candidate stream: the full byte list, the current read
position (`tell()`), and the `closed` attribute the scanners consult.  The
`closed` flag is an attribute of the stream object; the scanners only read
it, never set it. -/
structure ByteStream where
  data : List Nat
  pos : Nat
  closed : Bool
deriving Repr, DecidableEq

/-- `stream.read(n)`: the next `min(n, remaining)` bytes, advancing `pos`. -/
def ByteStream.read (s : ByteStream) (n : Nat) : List Nat × ByteStream :=
  let r := (s.data.drop s.pos).take n
  (r, { s with pos := s.pos + r.length })

/-- `ord(stream.read(1))`: `some` of the next byte, or `none` when the read
returns the empty bytes object (so that `ord` raises `TypeError`). -/
def ByteStream.read1 (s : ByteStream) : Option (Nat × ByteStream) :=
  match (s.data.drop s.pos).take 1 with
  | [] => none
  | b :: _ => some (b, { s with pos := s.pos + 1 })

/-- The Python exceptions the embedded code can raise. -/
inductive PyErr where
  | valueError
  | attributeError
  | indexError
  | typeError
deriving Repr, DecidableEq

/-- Decidable equality for `Except`, so that concrete runs of the embedded
code can be checked by `decide`. -/
instance {ε α : Type} [DecidableEq ε] [DecidableEq α] :
    DecidableEq (Except ε α) := fun x y =>
  match x, y with
  | .ok a, .ok b =>
    if h : a = b then isTrue (congrArg Except.ok h)
    else isFalse (fun he => h (Except.ok.inj he))
  | .error a, .error b =>
    if h : a = b then isTrue (congrArg Except.error h)
    else isFalse (fun he => h (Except.error.inj he))
  | .ok _, .error _ => isFalse (fun he => Except.noConfusion he)
  | .error _, .ok _ => isFalse (fun he => Except.noConfusion he)

/-- Outcome of one iteration of a `while True:` scan loop body. -/
inductive StepRes (σ : Type) where
  | cont (s : σ)
  | brk (s : σ)
  | err (e : PyErr)
deriving Repr, DecidableEq

/-- Ordered-dictionary lookup on an insertion-ordered association list
(Python dict membership test plus subscript). -/
def findVal {α : Type} : List (Int × α) → Int → Option α
  | [], _ => none
  | (k, v) :: rest, key => if k = key then some v else findVal rest key

/-- Python dict assignment `d[key] = v`: replace in place when the key is
present, otherwise append the new key at the end (insertion order). -/
def setVal {α : Type} : List (Int × α) → Int → α → List (Int × α)
  | [], key, v => [(key, v)]
  | (k, w) :: rest, key, v =>
    if k = key then (k, v) :: rest else (k, w) :: setVal rest key v

end PySync

/-! ## pyzsync.py -/

namespace Pyzsync

open PySync

/-- A value in a weak-checksum bucket of `remote_hashes`: either the
original 2-tuple `(block, strong)` or, after a confirmed match, the 3-tuple
`(block, strong, local_offset)` the code writes over it. -/
inductive SigEntry where
  | pair (block : Nat) (strong : List Nat)
  | triple (block : Nat) (strong : List Nat) (localOffset : Int)
deriving Repr, DecidableEq

/-- `remote_hashes`: dict from weak checksum to its candidate bucket. -/
abbrev Table := List (Int × List SigEntry)

/-- The block index stored in a bucket entry (its first tuple component). -/
def SigEntry.block : SigEntry → Nat
  | .pair blk _ => blk
  | .triple blk _ _ => blk

/-- One step of building `remote_hashes` (zsync_delta lines 22-27): append
to an existing weak bucket, or start a new one. -/
def addSigEntry (t : Table) (weak : Int) (e : SigEntry) : Table :=
  match findVal t weak with
  | some bucket => setVal t weak (bucket ++ [e])
  | none => setVal t weak [e]

/-- The `for block, (weak, strong) in enumerate(remotesignatures)` loop of
`zsync_delta` (lines 20-27), also counting `num_blocks`. -/
def buildTable (sigs : List (Int × List Nat)) : Table × Nat :=
  sigs.enum.foldl
    (fun acc bs => (addSigEntry acc.1 bs.2.1 (.pair bs.1 bs.2.2), acc.2 + 1))
    ([], 0)

/-- The `for index, (remote_offset, remote_strong) in enumerate(...)` loop
of `zsync_delta` (lines 43-49): scan the bucket for a strong-hash match,
replacing the first matching 2-tuple by a 3-tuple.  Unpacking a 3-tuple
into the 2-tuple pattern raises `ValueError`.  Returns whether `match` was
set, together with the (possibly mutated) bucket. -/
def bucketScan (localStrong : List Nat) (localOffset : Int) :
    List SigEntry → Except PyErr (Bool × List SigEntry)
  | [] => .ok (false, [])
  | .pair blk strong :: rest =>
    if localStrong = strong then
      .ok (true, .triple blk localStrong localOffset :: rest)
    else
      match bucketScan localStrong localOffset rest with
      | .ok p => .ok (p.1, .pair blk strong :: p.2)
      | .error e => .error e
  | .triple _ _ _ :: _ => .error .valueError

/-- The scan-loop state of `zsync_delta` (lines 29-79).  `mtch` is the
`match` flag, `alive` is `datastream is not None`, `tailsize` is only
meaningful once `alive = false` (before that Python has not assigned it and
the short-circuit conjunction never reads it). -/
structure ZState where
  stream : ByteStream
  alive : Bool
  window : List Nat
  checksum : Int
  a : Int
  b : Int
  mtch : Bool
  localOffset : Int
  tailsize : Nat
  table : Table
deriving Repr, DecidableEq

/-- Shared tail of the byte-shift branch (zsync_delta lines 70-79): the
early-exit test `if datastream is None and len(window) <= tailsize: break`,
then `oldbyte = window.pop(0)` (IndexError on an empty window),
`local_offset += 1` and the rolling-checksum update with the given
`newbyte` (the freshly read byte, or 0 once the stream is exhausted). -/
def shiftTail (blocksize : Nat) (s : ZState) (newbyte : Nat) : StepRes ZState :=
  if s.alive = false ∧ s.window.length ≤ s.tailsize then .brk s
  else
    match s.window with
    | [] => .err .indexError
    | oldbyte :: rest =>
      let r := rollingchecksum oldbyte newbyte s.a s.b blocksize
      .cont { s with window := rest, localOffset := s.localOffset + 1,
                     checksum := r.1, a := r.2.1, b := r.2.2 }

/-- The `if match and datastream is not None:` window re-seed of
`zsync_delta` (lines 33-39): read a fresh block into the window and
recompute the checksum state with `weakchecksum`. -/
def zsyncSeed (blocksize : Nat) (s0 : ZState) : ZState :=
  if s0.mtch ∧ s0.alive then
    let r := s0.stream.read blocksize
    let w := weakchecksum r.1
    { s0 with stream := r.2, window := r.1,
              localOffset := s0.localOffset + (blocksize : Int),
              checksum := w.1, a := w.2.1, b := w.2.2 }
  else s0

/-- One full iteration of the `while True:` body of `zsync_delta`
(lines 32-79). -/
def zsyncStep (blocksize : Nat) (s0 : ZState) : StepRes ZState :=
  let s := zsyncSeed blocksize s0
  match findVal s.table s.checksum with
  | some bucket =>
    -- `if checksum in remote_hashes:` (lines 40-52); note this branch never
    -- assigns `match = False`, and ends with `if datastream.closed: break`
    -- (an AttributeError when datastream is None).
    match bucketScan (md5 s.window) s.localOffset bucket with
    | .error e => .err e
    | .ok p =>
      let s := { s with table := setVal s.table s.checksum p.2,
                        mtch := p.1 || s.mtch }
      if s.alive then
        if s.stream.closed then .brk s else .cont s
      else .err .attributeError
  | none =>
    -- `else:` — the weak checksum missed (lines 54-79)
    let s := { s with mtch := false }
    if s.alive then
      match s.stream.read1 with
      | some br =>
        shiftTail blocksize
          { s with stream := br.2, window := s.window ++ [br.1] } br.1
      | none =>
        -- `except TypeError:` (lines 62-68)
        shiftTail blocksize
          { s with tailsize := s.stream.pos % blocksize, alive := false } 0
    else
      -- datastream already None: `if datastream:` is false, no read occurs,
      -- and `newbyte` retains the value 0 set when the stream was exhausted.
      shiftTail blocksize s 0

/-- Run the `while True:` loop of `zsync_delta` for at most `fuel`
iterations; `none` means the loop did not finish within the fuel. -/
def zsyncLoop (blocksize : Nat) : Nat → ZState → Option (Except PyErr ZState)
  | 0, _ => none
  | fuel + 1, s =>
    match zsyncStep blocksize s with
    | .cont s' => zsyncLoop blocksize fuel s'
    | .brk s' => some (.ok s')
    | .err e => some (.error e)

/-- The state of `zsync_delta` just before entering its scan loop. -/
def zsyncInit (data : List Nat) (closed : Bool)
    (sigs : List (Int × List Nat)) (blocksize : Nat) : ZState :=
  { stream := ⟨data, 0, closed⟩, alive := true, window := [],
    checksum := 0, a := 0, b := 0, mtch := true,
    localOffset := -(blocksize : Int), tailsize := 0,
    table := (buildTable sigs).1 }

/-- The scan loop of `zsync_delta`, returning the final loop state. -/
def zsyncRun (fuel : Nat) (data : List Nat) (closed : Bool)
    (sigs : List (Int × List Nat)) (blocksize : Nat) :
    Option (Except PyErr ZState) :=
  zsyncLoop blocksize fuel (zsyncInit data closed sigs blocksize)

/-- A slot of the blueprint `instructions` array: a matched candidate byte
offset (an `int`), the unresolved tuple
`(remote_block * blocksize, weak, strong)`, or — only after
`merge_instructions_blocks` — raw block bytes. -/
inductive Slot where
  | offs (localOffset : Int)
  | tup (offset : Nat) (weak : Int) (strong : List Nat)
  | content (bytes : List Nat)
deriving Repr, DecidableEq

/-- Processing of one bucket entry by `get_instructions` (lines 87-98).
`List.set` is an out-of-range no-op, but every reachable table only holds
block indices below `num_blocks`, where it agrees with the Python
subscript assignment. -/
def instrStep (blocksize : Nat) (acc : List (Option Slot) × List Nat)
    (weak : Int) (e : SigEntry) : List (Option Slot) × List Nat :=
  match e with
  | .pair blk strong =>
    (acc.1.set blk (some (.tup (blk * blocksize) weak strong)), acc.2 ++ [blk])
  | .triple blk _ localOffset =>
    (acc.1.set blk (some (.offs localOffset)), acc.2)

/-- `get_instructions(remote_hashes, blocksize, num_blocks)` from
pyzsync.py (lines 84-99): fill an array of `num_blocks` `None` slots by
walking the dict in key-insertion order and each bucket in order, and
collect the unmatched block indices into `to_request`. -/
def get_instructions (table : Table) (blocksize num_blocks : Nat) :
    List (Option Slot) × List Nat :=
  table.foldl
    (fun acc kv => kv.2.foldl (fun a e => instrStep blocksize a kv.1 e) acc)
    (List.replicate num_blocks none, [])

/-- `zsync_delta(datastream, remotesignatures, blocksize)` from pyzsync.py
(lines 19-82), run with the given iteration fuel: build `remote_hashes`,
scan, and order the results with `get_instructions`. -/
def zsync_delta (fuel : Nat) (data : List Nat) (closed : Bool)
    (sigs : List (Int × List Nat)) (blocksize : Nat) :
    Option (Except PyErr (List (Option Slot) × List Nat)) :=
  (zsyncRun fuel data closed sigs blocksize).map
    (fun r => r.map
      (fun s => get_instructions s.table blocksize (buildTable sigs).2))

/-- `get_blocks(datastream, requests, blocksize)` from pyzsync.py
(lines 122-128): for each requested block index, seek to
`block * blocksize` and read one block. -/
def get_blocks (data : List Nat) (requests : List Nat) (blocksize : Nat) :
    List (Nat × List Nat) :=
  requests.map (fun block => (block, (data.drop (block * blocksize)).take blocksize))

/-- The Python expression `instructions[block][0]`: subscripting an `int`
slot or `None` raises `TypeError`; subscripting an empty bytes object
raises `IndexError`; a tuple yields its first component and bytes yield
their first byte. -/
def slotIndex0 : Option Slot → Except PyErr Nat
  | some (.tup offset _ _) => .ok offset
  | some (.content (b :: _)) => .ok b
  | some (.content []) => .error .indexError
  | some (.offs _) => .error .typeError
  | none => .error .typeError

/-- `merge_instructions_blocks(instructions, blocks, blocksize)` from
pyzsync.py (lines 130-135): for each fetched `(block, content)`, replace
`instructions[block]` by the raw bytes when `instructions[block][0]` equals
`block * blocksize`. -/
def merge_instructions_blocks :
    List (Option Slot) → List (Nat × List Nat) → Nat →
    Except PyErr (List (Option Slot))
  | instr, [], _ => .ok instr
  | instr, bc :: rest, blocksize =>
    if bc.1 < instr.length then
      match slotIndex0 (instr.getD bc.1 none) with
      | .error e => .error e
      | .ok v =>
        merge_instructions_blocks
          (if v = bc.1 * blocksize then instr.set bc.1 (some (.content bc.2))
           else instr)
          rest blocksize
    else .error .indexError

/-- `patchstream(instream, outstream, delta, blocksize)` from pyzsync.py
(lines 137-147): `int` elements (with a truthy blocksize) are treated as
direct byte offsets to seek to and read a block from; other elements are
written verbatim — writing a tuple or `None` to a byte sink raises
`TypeError`, and seeking to a negative offset raises `ValueError`. -/
def patchstream (instream : List Nat) (delta : List (Option Slot))
    (blocksize : Nat) : Except PyErr (List Nat) :=
  match delta with
  | [] => .ok []
  | e :: rest =>
    match
      (match e with
       | some (.offs off) =>
         if blocksize ≠ 0 then
           if 0 ≤ off then .ok ((instream.drop off.toNat).take blocksize)
           else .error .valueError
         else .error .typeError
       | some (.content bytes) => .ok bytes
       | some (.tup _ _ _) => .error .typeError
       | none => .error .typeError : Except PyErr (List Nat)) with
    | .error er => .error er
    | .ok piece =>
      match patchstream instream rest blocksize with
      | .error er => .error er
      | .ok out => .ok (piece ++ out)

/-- The block indices stored in a bucket, in order. -/
def bucketBlocks (bkt : List SigEntry) : List Nat := bkt.map SigEntry.block

/-- All block indices stored in the table, in key-insertion order and
bucket order — the order `get_instructions` walks them. -/
def tableBlocks (t : Table) : List Nat := t.flatMap (fun kv => bucketBlocks kv.2)

/-- The table flattened to `(weak, entry)` pairs in iteration order. -/
def tableFlat (t : Table) : List (Int × SigEntry) :=
  t.flatMap (fun kv => kv.2.map (fun e => (kv.1, e)))

/-- The block index `get_instructions` appends to `to_request` for an
entry: the block of a still-unmatched 2-tuple, nothing for a 3-tuple. -/
def entryReq : Int × SigEntry → Option Nat
  | (_, .pair blk _) => some blk
  | (_, .triple _ _ _) => none

/-- `instrStep` uncurried over the flattened table. -/
def instrFoldStep (blocksize : Nat) (acc : List (Option Slot) × List Nat)
    (we : Int × SigEntry) : List (Option Slot) × List Nat :=
  instrStep blocksize acc we.1 we.2

end Pyzsync

/-! ## pyrsync2.py -/

namespace Pyrsync2

open PySync

/-- The `remotesignatures` dict of `rsyncdelta` (lines 189-192): weak
checksum to `(index, strong)`, built by a dict comprehension, so a repeated
weak key keeps its first insertion position but is overwritten by the
later `(index, strong)` value. -/
abbrev RDict := List (Int × (Nat × List Nat))

/-- The dict comprehension
`{weak: (index, strong) for index, (weak, strong) in enumerate(remotesignatures)}`. -/
def buildRDict (sigs : List (Int × List Nat)) : RDict :=
  sigs.enum.foldl (fun d bs => setVal d bs.2.1 (bs.1, bs.2.2)) []

/-- An element yielded by the `rsyncdelta` generator: a raw literal byte
run (`bytes`) or a matched baseline block index (`int`). -/
inductive RInstr where
  | lit (bytes : List Nat)
  | blockref (block : Nat)
deriving Repr, DecidableEq

/-- The scan-loop state of `rsyncdelta` (lines 193-263), with the sequence
of values yielded so far accumulated in `out`. -/
structure RState where
  stream : ByteStream
  alive : Bool
  window : List Nat
  windowOffset : Nat
  checksum : Int
  a : Int
  b : Int
  mtch : Bool
  tailsize : Nat
  currentBlock : List Nat
  out : List RInstr
deriving Repr, DecidableEq

/-- Shared tail of the byte-shift branch of `rsyncdelta` (lines 240-263):
the exit test `if datastream is None and len(window) - window_offset <=
tailsize` (which flushes `current_block`, parks the window tail in
`current_block` and breaks), then `oldbyte = window[window_offset]`,
`window_offset += 1`, the rolling-checksum update, the max-buffer flush,
and `current_block.append(oldbyte)`. -/
def rshiftTail (blocksize maxBuffer : Nat) (s : RState) (newbyte : Nat) :
    StepRes RState :=
  if s.alive = false ∧ s.window.length - s.windowOffset ≤ s.tailsize then
    .brk { s with
      out := s.out ++ (if s.currentBlock ≠ [] then [.lit s.currentBlock] else []),
      currentBlock := s.window.drop s.windowOffset }
  else
    let oldbyte := s.window.getD s.windowOffset 0
    let r := rollingchecksum oldbyte newbyte s.a s.b blocksize
    let s := { s with windowOffset := s.windowOffset + 1,
                      checksum := r.1, a := r.2.1, b := r.2.2 }
    let s :=
      if maxBuffer ≤ s.currentBlock.length then
        { s with out := s.out ++ [.lit s.currentBlock], currentBlock := [] }
      else s
    .cont { s with currentBlock := s.currentBlock ++ [oldbyte] }

/-- The `else:` branch of `rsyncdelta` (lines 224-263): try to pull one
byte, switching to the shrinking tail regime when the stream is
exhausted. -/
def rsyncElse (blocksize maxBuffer : Nat) (s : RState) : StepRes RState :=
  if s.alive then
    match s.stream.read1 with
    | some br =>
      rshiftTail blocksize maxBuffer
        { s with stream := br.2, window := s.window ++ [br.1] } br.1
    | none =>
      rshiftTail blocksize maxBuffer
        { s with tailsize := s.stream.pos % blocksize, alive := false } 0
  else
    rshiftTail blocksize maxBuffer s 0

/-- The `if match and datastream is not None:` window re-seed of
`rsyncdelta` (lines 198-204). -/
def rsyncSeed (blocksize : Nat) (s0 : RState) : RState :=
  if s0.mtch ∧ s0.alive then
    let r := s0.stream.read blocksize
    let w := weakchecksum r.1
    { s0 with stream := r.2, window := r.1, windowOffset := 0,
              checksum := w.1, a := w.2.1, b := w.2.2 }
  else s0

/-- One full iteration of the `while True:` body of `rsyncdelta`
(lines 197-263). -/
def rsyncStep (dict : RDict) (blocksize maxBuffer : Nat) (s0 : RState) :
    StepRes RState :=
  let s := rsyncSeed blocksize s0
  -- `if (checksum in remotesignatures and
  --      remotesignatures[checksum][1] == md5(window[window_offset:]))`
  match findVal dict s.checksum with
  | some isv =>
    if md5 (s.window.drop s.windowOffset) = isv.2 then
      let s := { s with mtch := true,
                        out := s.out ++
                          (if s.currentBlock ≠ [] then [RInstr.lit s.currentBlock]
                           else []) ++ [RInstr.blockref isv.1],
                        currentBlock := [] }
      if s.alive then
        if s.stream.closed then .brk s else .cont s
      else .err .attributeError
    else
      -- strong comparison failed: the conjunction is false, fall to `else:`
      rsyncElse blocksize maxBuffer { s with mtch := false }
  | none => rsyncElse blocksize maxBuffer { s with mtch := false }

/-- Run the `while True:` loop of `rsyncdelta` for at most `fuel`
iterations. -/
def rsyncLoop (dict : RDict) (blocksize maxBuffer : Nat) :
    Nat → RState → Option (Except PyErr RState)
  | 0, _ => none
  | fuel + 1, s =>
    match rsyncStep dict blocksize maxBuffer s with
    | .cont s' => rsyncLoop dict blocksize maxBuffer fuel s'
    | .brk s' => some (.ok s')
    | .err e => some (.error e)

/-- The state of `rsyncdelta` just before entering its scan loop. -/
def rsyncInit (data : List Nat) (closed : Bool) : RState :=
  { stream := ⟨data, 0, closed⟩, alive := true, window := [],
    windowOffset := 0, checksum := 0, a := 0, b := 0, mtch := true,
    tailsize := 0, currentBlock := [], out := [] }

/-- `rsyncdelta(datastream, remotesignatures, blocksize, max_buffer)` from
pyrsync2.py (lines 181-266), run with the given iteration fuel: the full
sequence of values the generator yields, including the final
`if len(current_block) > 0: yield bytes(current_block)` after the loop. -/
def rsyncdelta (fuel : Nat) (data : List Nat) (closed : Bool)
    (sigs : List (Int × List Nat)) (blocksize maxBuffer : Nat) :
    Option (Except PyErr (List RInstr)) :=
  (rsyncLoop (buildRDict sigs) blocksize maxBuffer fuel
      (rsyncInit data closed)).map
    (fun r => r.map (fun s =>
      s.out ++ (if s.currentBlock ≠ [] then [.lit s.currentBlock] else [])))

/-- `patchstream(instream, outstream, delta, blocksize)` from pyrsync2.py
(lines 281-291): an `int` element (with a truthy blocksize) seeks the
source to `element * blocksize` and reads one block; bytes elements are
written verbatim.  Writing an `int` element raw (blocksize 0) raises
`TypeError`. -/
def patchstream (instream : List Nat) (delta : List RInstr)
    (blocksize : Nat) : Except PyErr (List Nat) :=
  match delta with
  | [] => .ok []
  | .blockref n :: rest =>
    if blocksize ≠ 0 then
      match patchstream instream rest blocksize with
      | .error er => .error er
      | .ok out => .ok ((instream.drop (n * blocksize)).take blocksize ++ out)
    else .error .typeError
  | .lit bytes :: rest =>
    match patchstream instream rest blocksize with
    | .error er => .error er
    | .ok out => .ok (bytes ++ out)

/-- Whether a yielded sequence contains a non-empty literal. -/
def hasNonemptyLit (l : List RInstr) : Bool :=
  l.any (fun e => match e with
    | .lit bytes => !bytes.isEmpty
    | .blockref _ => false)

end Pyrsync2

namespace Pyzsync

open PySync

/-- The concrete `zsync_delta` loop state reached after one iteration on
candidate `[9, 1, 0, 2]` against the single-block baseline `[0, 2, 1]`
(blocksize 3): the window has shifted to `[1, 0, 2]`, whose weak checksum
327683 collides with the baseline block's while its MD5 differs. -/
def collideState : ZState :=
  { stream := { data := [9, 1, 0, 2], pos := 4, closed := false },
    alive := true,
    window := [1, 0, 2],
    checksum := 327683,
    a := 3,
    b := 5,
    mtch := false,
    localOffset := 1,
    tailsize := 0,
    table := [(327683,
      [SigEntry.pair 0
        [70, 84, 104, 231, 167, 32, 71, 226, 99, 10, 219, 84, 23, 80, 111, 104]])] }

/-- Termination measure for the scan loop when no weak checksum can ever
hit (empty signature table): remaining stream bytes plus window length. -/
def zmeasure (s : ZState) : Nat :=
  if s.alive = true then
    (s.stream.data.length - s.stream.pos) + s.window.length + 2
  else s.window.length

end Pyzsync

/-! ## Theorems settling the claims -/

section ClaimC3

open PySync Pyzsync

/-- The state `collideState` is a fixpoint of the `zsync_delta` loop body:
a weak-checksum hit whose strong comparison fails, reached with the `match`
flag already `False`, changes nothing — the weak-hit branch never assigns
`match = False`, so the loop neither re-seeds nor byte-shifts. -/
theorem collideState_fix : zsyncStep 3 collideState = .cont collideState := by
  decide

/-- From `collideState` the loop never terminates, whatever the fuel. -/
theorem collideState_diverges (fuel : Nat) :
    zsyncLoop 3 fuel collideState = none := by
  induction fuel with
  | zero => rfl
  | succ n ih => rw [zsyncLoop, collideState_fix]; exact ih

/-- C3: the claim says a weak-checksum hit with no strong match takes the
same transition as a weak miss (byte-shift).  The code instead leaves the
`match` flag untouched, so with `match == False` it loops forever without
progress: scanning candidate `[9, 1, 0, 2]` against baseline `[0, 2, 1]`
(blocksize 3, whose only block has the same weak checksum 327683 as the
shifted window `[1, 0, 2]` but a different MD5) never terminates, for any
iteration fuel. -/
theorem C3_weak_hit_no_strong_match_loops (fuel : Nat) :
    zsyncRun fuel [9, 1, 0, 2] false (block_checksums 3 [0, 2, 1]) 3 = none := by
  match fuel with
  | 0 => rfl
  | f + 1 =>
    have h1 : zsyncStep 3 (zsyncInit [9, 1, 0, 2] false
        (block_checksums 3 [0, 2, 1]) 3) = .cont collideState := by decide
    rw [zsyncRun, zsyncLoop, h1]
    exact collideState_diverges f

end ClaimC3

section ClaimC4

open PySync Pyzsync

/-- C4: the claim says the scan never terminates before the candidate
stream is exhausted, and in particular that a stream reporting itself
closed after a match never ends the scan early.  The code has
`if datastream.closed: break`: on candidate `[1, 2, 3, 9, 9, 9]` whose
stream reports `closed`, scanning against baseline `[1, 2, 3]`
(blocksize 3) stops right after the first confirmed match with the read
position at 3 of 6 — while the same input with `closed = False` scans to
exhaustion (position 6). -/
theorem C4_closed_stream_ends_scan_early :
    ((zsyncRun 20 [1, 2, 3, 9, 9, 9] true (block_checksums 3 [1, 2, 3]) 3).map
        (fun r => r.map (fun s => (s.stream.pos, s.stream.data.length))) =
      some (.ok (3, 6))) ∧
    ((zsyncRun 20 [1, 2, 3, 9, 9, 9] false (block_checksums 3 [1, 2, 3]) 3).map
        (fun r => r.map (fun s => (s.stream.pos, s.stream.data.length))) =
      some (.ok (6, 6))) := by
  constructor <;> decide

end ClaimC4

section ClaimC5

open PySync Pyzsync

/-- C5: the claim says a later candidate occurrence of an already-resolved
baseline block is ignored without overwriting the record and without
aborting the scan.  In the code the first match overwrites the bucket's
2-tuple with a 3-tuple, and the next weak hit on that bucket unpacks every
entry as a 2-tuple, so the scan aborts with `ValueError`: candidate
`[5, 6, 7, 5, 6, 7]` against the single-block baseline `[5, 6, 7]`
(blocksize 3) raises instead of returning a blueprint. -/
theorem C5_repeated_match_raises_valueerror :
    zsync_delta 20 [5, 6, 7, 5, 6, 7] false (block_checksums 3 [5, 6, 7]) 3 =
      some (.error .valueError) := by
  decide

end ClaimC5

section ClaimC2

open PySync

/-- Additive pair folds over an index list split off their initial
accumulator. -/
lemma foldl_add_split (f g : Nat → Nat) (L : List Nat) :
    ∀ A B : Nat, L.foldl (fun p i => (p.1 + f i, p.2 + g i)) (A, B) =
      (A + (L.foldl (fun p i => (p.1 + f i, p.2 + g i)) (0, 0)).1,
       B + (L.foldl (fun p i => (p.1 + f i, p.2 + g i)) (0, 0)).2) := by
  induction L with
  | nil => intro A B; simp
  | cons i L ih =>
    intro A B
    simp only [List.foldl_cons]
    rw [ih (A + f i) (B + g i), ih (0 + f i) (0 + g i)]
    simp only [Prod.mk.injEq]
    omega

/-- Peeling the head element off the `weakchecksum` accumulator loop. -/
lemma weakAB_cons (x : Nat) (xs : List Nat) :
    weakAB (x :: xs) =
      (x + (weakAB xs).1, (xs.length + 1) * x + (weakAB xs).2) := by
  unfold weakAB
  simp only [List.length_cons, List.range_succ_eq_map, List.foldl_cons,
    List.foldl_map, List.getD_cons_zero, List.getD_cons_succ,
    Nat.sub_zero, Nat.zero_add, Nat.succ_sub_succ]
  exact foldl_add_split _ _ _ x ((xs.length + 1) * x)

/-- Appending a byte at the tail of the window adds it with weight one and
re-weights nothing: `a` grows by the byte, `b` grows by `a + byte`. -/
lemma weakAB_snoc (xs : List Nat) (y : Nat) :
    weakAB (xs ++ [y]) =
      ((weakAB xs).1 + y, (weakAB xs).2 + (weakAB xs).1 + y) := by
  induction xs with
  | nil =>
    show weakAB [y] = _
    rw [weakAB_cons y []]
    simp [weakAB]
  | cons x t ih =>
    rw [List.cons_append, weakAB_cons x (t ++ [y]), ih, weakAB_cons x t]
    simp only [List.length_append, List.length_cons, List.length_nil,
      Prod.mk.injEq]
    constructor <;> ring

/-- C2: for a window `w` of length exactly `blocksize` and any byte `n`,
feeding `weakchecksum w`'s state `(a, b)` into
`rollingchecksum(w[0], n, a, b, blocksize)` yields exactly
`weakchecksum(w[1:] ++ [n])` — all three components, so the slide update
`a' = a - removed + new`, `b' = b - removed * blocksize + a'` (with the
already-updated `a'`) keeps `(a, b)` equal to the unweighted and
position-weighted byte sums of the shifted window, with composite checksum
`(b << 16) | a`. -/
theorem C2_rollingchecksum_slides_window (w : List Nat) (n blocksize : Nat)
    (hB : 0 < blocksize) (hlen : w.length = blocksize) :
    rollingchecksum (w.headD 0) n (weakchecksum w).2.1 (weakchecksum w).2.2
      blocksize = weakchecksum (w.tail ++ [n]) := by
  match w with
  | [] => simp at hlen; omega
  | x :: t =>
    simp only [List.length_cons] at hlen
    subst hlen
    simp only [List.headD_cons, List.tail_cons]
    have ha : ((weakAB (x :: t)).1 : Int) - ((x : Int) - (n : Int)) =
        ((weakAB (t ++ [n])).1 : Int) := by
      rw [weakAB_cons, weakAB_snoc]; dsimp only; push_cast; ring
    have hb : ((weakAB (x :: t)).2 : Int) -
        ((x : Int) * ((t.length + 1 : Nat) : Int) -
          (((weakAB (x :: t)).1 : Int) - ((x : Int) - (n : Int)))) =
        ((weakAB (t ++ [n])).2 : Int) := by
      rw [weakAB_cons, weakAB_snoc]; dsimp only; push_cast; ring
    simp only [weakchecksum, rollingchecksum]
    rw [hb, ha]

/-- Witness for C2 at the concrete window `[1, 2, 3]`, byte 7,
blocksize 3. -/
theorem C2_rollingchecksum_slides_window_witness :
    rollingchecksum ([1, 2, 3].headD 0) 7 (weakchecksum [1, 2, 3]).2.1
      (weakchecksum [1, 2, 3]).2.2 3 = weakchecksum ([1, 2, 3].tail ++ [7]) :=
  C2_rollingchecksum_slides_window [1, 2, 3] 7 3 (by decide) (by decide)

end ClaimC2
section ClaimC8
open PySync

lemma chunksAux_nil (B : Nat) : ∀ f, chunksAux B f [] = [] := by
  intro f; cases f <;> rfl

lemma chunksAux_congr (B : Nat) (hB : 0 < B) :
    ∀ f g d, List.length d ≤ f → List.length d ≤ g →
      chunksAux B f d = chunksAux B g d := by
  intro f
  induction f with
  | zero =>
    intro g d hf _
    have : d = [] := List.eq_nil_of_length_eq_zero (by omega)
    subst this
    rw [chunksAux_nil, chunksAux_nil]
  | succ f ih =>
    intro g d hf hg
    match d with
    | [] => rw [chunksAux_nil, chunksAux_nil]
    | x :: xs =>
      match g with
      | 0 => simp at hg
      | g + 1 =>
        simp only [List.length_cons] at hf hg
        show _ :: chunksAux B f _ = _ :: chunksAux B g _
        congr 1
        apply ih
        · rw [List.length_drop]; simp only [List.length_cons]; omega
        · rw [List.length_drop]; simp only [List.length_cons]; omega

lemma chunksOf_nil (B : Nat) : chunksOf B [] = [] := by
  unfold chunksOf
  split <;> simp [chunksAux_nil]

lemma chunksOf_cons (B : Nat) (hB : 0 < B) (d : List Nat) (hd : d ≠ []) :
    chunksOf B d = d.take B :: chunksOf B (d.drop B) := by
  match d with
  | x :: xs =>
    unfold chunksOf
    rw [if_neg (by omega), if_neg (by omega)]
    show _ :: chunksAux B xs.length _ = _
    congr 1
    exact chunksAux_congr B hB xs.length ((x :: xs).drop B).length
      ((x :: xs).drop B)
      (by rw [List.length_drop]; simp only [List.length_cons]; omega) le_rfl

lemma block_checksumsAux_eq (B : Nat) :
    ∀ f d, block_checksumsAux B f d =
      (chunksAux B f d).map (fun blk => ((weakchecksum blk).1, md5 blk)) := by
  intro f
  induction f with
  | zero => intro d; cases d <;> rfl
  | succ f ih =>
    intro d
    cases d with
    | nil => rfl
    | cons x xs =>
      show _ :: block_checksumsAux B f _ = _ :: _
      rw [ih]

lemma block_checksums_eq_map (B : Nat) (d : List Nat) :
    block_checksums B d =
      (chunksOf B d).map (fun blk => ((weakchecksum blk).1, md5 blk)) := by
  unfold block_checksums chunksOf
  split
  · rfl
  · exact block_checksumsAux_eq B d.length d

lemma chunksOf_join (B : Nat) (hB : 0 < B) (d0 : List Nat) :
    (chunksOf B d0).flatten = d0 := by
  suffices h : ∀ (k : Nat) (d : List Nat), d.length ≤ k →
      (chunksOf B d).flatten = d from h d0.length d0 le_rfl
  intro k
  induction k with
  | zero =>
    intro d hd
    have : d = [] := List.eq_nil_of_length_eq_zero (by omega)
    subst this
    simp [chunksOf_nil]
  | succ k ih =>
    intro d hd
    match d with
    | [] => simp [chunksOf_nil]
    | x :: xs =>
      simp only [List.length_cons] at hd
      rw [chunksOf_cons B hB _ (by simp), List.flatten_cons,
        ih ((x :: xs).drop B)
          (by rw [List.length_drop]; simp only [List.length_cons]; omega)]
      exact List.take_append_drop B (x :: xs)

lemma chunksOf_shape (B : Nat) (hB : 0 < B) (d0 : List Nat) :
    ∀ blk ∈ chunksOf B d0, blk ≠ [] ∧ blk.length ≤ B := by
  suffices h : ∀ (k : Nat) (d : List Nat), d.length ≤ k →
      ∀ blk ∈ chunksOf B d, blk ≠ [] ∧ blk.length ≤ B from
    h d0.length d0 le_rfl
  intro k
  induction k with
  | zero =>
    intro d hd
    have : d = [] := List.eq_nil_of_length_eq_zero (by omega)
    subst this
    simp [chunksOf_nil]
  | succ k ih =>
    intro d hd
    match d with
    | [] => simp [chunksOf_nil]
    | x :: xs =>
      simp only [List.length_cons] at hd
      rw [chunksOf_cons B hB _ (by simp)]
      intro blk hblk
      rcases List.mem_cons.mp hblk with h | h
      · subst h
        match B, hB with
        | B + 1, _ => exact ⟨by simp, by simp⟩
      · exact ih ((x :: xs).drop B)
          (by rw [List.length_drop]; simp only [List.length_cons]; omega) blk h

lemma chunksOf_full (B : Nat) (hB : 0 < B) (d0 : List Nat) :
    ∀ i, i + 1 < (chunksOf B d0).length →
      ((chunksOf B d0).getD i []).length = B := by
  suffices h : ∀ (k : Nat) (d : List Nat), d.length ≤ k →
      ∀ i, i + 1 < (chunksOf B d).length →
        ((chunksOf B d).getD i []).length = B from h d0.length d0 le_rfl
  intro k
  induction k with
  | zero =>
    intro d hd
    have : d = [] := List.eq_nil_of_length_eq_zero (by omega)
    subst this
    simp [chunksOf_nil]
  | succ k ih =>
    intro d hd
    match d with
    | [] => simp [chunksOf_nil]
    | x :: xs =>
      simp only [List.length_cons] at hd
      rw [chunksOf_cons B hB _ (by simp)]
      intro i hi
      match i with
      | 0 =>
        simp only [List.getD_cons_zero, List.length_take, List.length_cons]
        by_contra hne
        have hlt : xs.length + 1 < B := by omega
        have hdrop : (x :: xs).drop B = [] := by
          apply List.drop_eq_nil_of_le
          simp only [List.length_cons]
          omega
        rw [hdrop, chunksOf_nil] at hi
        simp at hi
      | j + 1 =>
        simp only [List.getD_cons_succ]
        refine ih ((x :: xs).drop B)
          (by rw [List.length_drop]; simp only [List.length_cons]; omega) j ?_
        simpa using hi
end ClaimC8

open PySync in
/-- C8: for every baseline byte list and positive blocksize, the signature
generator `block_checksums` emits exactly one `(weak, strong)` pair per
consecutive non-overlapping block taken from the stream start to
end-of-stream, in block order: its output is the blockwise map of
`(weakchecksum(block)[0], md5(block))` over `chunksOf`, whose blocks
concatenate back to the stream, are all non-empty of length at most
`blocksize`, and are of length exactly `blocksize` except possibly the
final (still emitted) shorter one. -/
theorem C8_signature_per_block (B : Nat) (data : List Nat) (hB : 0 < B) :
    block_checksums B data =
      (chunksOf B data).map (fun blk => ((weakchecksum blk).1, md5 blk)) ∧
    (chunksOf B data).flatten = data ∧
    (∀ blk ∈ chunksOf B data, blk ≠ [] ∧ blk.length ≤ B) ∧
    (∀ i, i + 1 < (chunksOf B data).length →
      ((chunksOf B data).getD i []).length = B) :=
  ⟨block_checksums_eq_map B data, chunksOf_join B hB data,
   chunksOf_shape B hB data, chunksOf_full B hB data⟩

open PySync in
/-- Witness for C8 at blocksize 3 and the five-byte baseline
`[1, 2, 3, 4, 5]` (two blocks, the final one shorter). -/
theorem C8_signature_per_block_witness :
    block_checksums 3 [1, 2, 3, 4, 5] =
      (chunksOf 3 [1, 2, 3, 4, 5]).map
        (fun blk => ((weakchecksum blk).1, md5 blk)) :=
  (C8_signature_per_block 3 [1, 2, 3, 4, 5] (by decide)).1
section TableInv
open PySync Pyzsync

lemma tableBlocks_cons (kv : Int × List SigEntry) (rest : Table) :
    tableBlocks (kv :: rest) = bucketBlocks kv.2 ++ tableBlocks rest := by
  simp [tableBlocks]

lemma bucketBlocks_cons (e : SigEntry) (l : List SigEntry) :
    bucketBlocks (e :: l) = e.block :: bucketBlocks l := rfl

lemma bucketScan_blocks (ls : List Nat) (lo : Int) :
    ∀ bkt p, bucketScan ls lo bkt = .ok p → bucketBlocks p.2 = bucketBlocks bkt := by
  intro bkt
  induction bkt with
  | nil => intro p h; cases h; rfl
  | cons e rest ih =>
    intro p h
    match e with
    | .triple _ _ _ => exact absurd h (by simp [bucketScan])
    | .pair blk strong =>
      rw [bucketScan] at h
      split at h
      · cases h; rfl
      · revert h
        match hrec : bucketScan ls lo rest with
        | .error e => intro h; cases h
        | .ok q =>
          intro h
          cases h
          rw [bucketBlocks_cons, bucketBlocks_cons, ih q hrec]

lemma setVal_tableBlocks :
    ∀ (t : Table) (k : Int) (v v' : List SigEntry),
      findVal t k = some v → bucketBlocks v' = bucketBlocks v →
      tableBlocks (setVal t k v') = tableBlocks t := by
  intro t
  induction t with
  | nil => intro k v v' h; cases h
  | cons kv rest ih =>
    intro k v v' hf hb
    rw [findVal] at hf
    rw [setVal]
    by_cases hk : kv.1 = k
    · rw [if_pos hk] at hf
      cases hf
      rw [if_pos hk, tableBlocks_cons, tableBlocks_cons, hb]
    · rw [if_neg hk] at hf
      rw [if_neg hk, tableBlocks_cons, tableBlocks_cons, ih k v v' hf hb]

lemma zsyncSeed_table (B : Nat) (s : ZState) :
    (zsyncSeed B s).table = s.table := by
  rw [zsyncSeed]; split <;> rfl

lemma shiftTail_table (B : Nat) (s : ZState) (nb : Nat) (s' : ZState)
    (h : shiftTail B s nb = .cont s' ∨ shiftTail B s nb = .brk s') :
    s'.table = s.table := by
  rcases h with h | h <;>
  · rw [shiftTail] at h
    split at h
    · first
      | (cases h; rfl)
      | cases h
    · split at h <;> cases h <;> rfl

lemma zsyncStep_table (B : Nat) (s : ZState) (s' : ZState)
    (h : zsyncStep B s = .cont s' ∨ zsyncStep B s = .brk s') :
    tableBlocks s'.table = tableBlocks s.table := by
  have hseed := zsyncSeed_table B s
  rw [← hseed]
  generalize hq : zsyncSeed B s = s1 at *
  simp only [zsyncStep, hq] at h
  revert h
  cases hfv : findVal s1.table s1.checksum with
  | none =>
    intro h
    dsimp only at h
    rcases h with h | h
    · split at h
      · split at h
        · have ht := shiftTail_table B _ _ s' (Or.inl h)
          exact congrArg tableBlocks ht
        · have ht := shiftTail_table B _ _ s' (Or.inl h)
          exact congrArg tableBlocks ht
      · have ht := shiftTail_table B _ _ s' (Or.inl h)
        exact congrArg tableBlocks ht
    · split at h
      · split at h
        · have ht := shiftTail_table B _ _ s' (Or.inr h)
          exact congrArg tableBlocks ht
        · have ht := shiftTail_table B _ _ s' (Or.inr h)
          exact congrArg tableBlocks ht
      · have ht := shiftTail_table B _ _ s' (Or.inr h)
        exact congrArg tableBlocks ht
  | some bucket =>
    intro h
    dsimp only at h
    rcases h with h | h <;>
    · rw [show (bucketScan (md5 s1.window) s1.localOffset bucket) =
        (bucketScan (md5 s1.window) s1.localOffset bucket) from rfl] at h
      revert h
      cases hbs : bucketScan (md5 s1.window) s1.localOffset bucket with
      | error e => intro h; dsimp only at h; cases h
      | ok p =>
        intro h
        dsimp only at h
        split at h
        · split at h <;> cases h <;>
            exact setVal_tableBlocks s1.table s1.checksum bucket p.2 hfv
              (bucketScan_blocks _ _ bucket p hbs)
        · cases h
end TableInv

section TableInv2
open PySync Pyzsync

lemma zsyncLoop_table (B : Nat) :
    ∀ (fuel : Nat) (s sf : ZState), zsyncLoop B fuel s = some (.ok sf) →
      tableBlocks sf.table = tableBlocks s.table := by
  intro fuel
  induction fuel with
  | zero => intro s sf h; cases h
  | succ fuel ih =>
    intro s sf h
    rw [zsyncLoop] at h
    revert h
    cases hstep : zsyncStep B s with
    | cont s1 =>
      intro h
      rw [ih s1 sf h]
      exact zsyncStep_table B s s1 (Or.inl hstep)
    | brk s1 =>
      intro h
      cases h
      exact zsyncStep_table B s sf (Or.inr hstep)
    | err e => intro h; cases h

lemma findVal_eq_none {α : Type} :
    ∀ (t : List (Int × α)) (k : Int), k ∉ t.map Prod.fst → findVal t k = none := by
  intro t
  induction t with
  | nil => intro k _; rfl
  | cons kv rest ih =>
    intro k hk
    simp only [List.map_cons, List.mem_cons] at hk
    push_neg at hk
    rw [findVal, if_neg (fun he => hk.1 he.symm), ih k hk.2]

lemma setVal_not_found {α : Type} :
    ∀ (t : List (Int × α)) (k : Int) (v : α), findVal t k = none →
      setVal t k v = t ++ [(k, v)] := by
  intro t
  induction t with
  | nil => intro k v _; rfl
  | cons kv rest ih =>
    intro k v hf
    rw [findVal] at hf
    by_cases hk : kv.1 = k
    · rw [if_pos hk] at hf; cases hf
    · rw [if_neg hk] at hf
      rw [setVal, if_neg hk, ih k v hf]
      rfl

lemma addSigEntry_cons_ne (k : Int) (bkt : List SigEntry) (rest : Table)
    (w : Int) (e : SigEntry) (hk : k ≠ w) :
    addSigEntry ((k, bkt) :: rest) w e = (k, bkt) :: addSigEntry rest w e := by
  rw [addSigEntry, addSigEntry, findVal, if_neg hk]
  cases hf : findVal rest w with
  | none => dsimp only; rw [setVal, if_neg hk]
  | some b => dsimp only; rw [setVal, if_neg hk]

lemma addSigEntry_blocks :
    ∀ (t : Table) (w : Int) (e : SigEntry),
      List.Perm (tableBlocks (addSigEntry t w e)) (tableBlocks t ++ [e.block]) := by
  intro t
  induction t with
  | nil =>
    intro w e
    show List.Perm (tableBlocks [(w, [e])]) _
    simp [tableBlocks, bucketBlocks]
  | cons kv rest ih =>
    intro w e
    match kv with
    | (k0, bkt0) =>
      by_cases hk : k0 = w
      · -- key found at head: entry appended to this bucket
        have heq : addSigEntry ((k0, bkt0) :: rest) w e =
            (k0, bkt0 ++ [e]) :: rest := by
          rw [addSigEntry, findVal, if_pos hk]
          dsimp only
          rw [setVal, if_pos hk]
        rw [heq, tableBlocks_cons, tableBlocks_cons]
        have hbb : bucketBlocks (bkt0 ++ [e]) = bucketBlocks bkt0 ++ [e.block] := by
          simp [bucketBlocks]
        show List.Perm (bucketBlocks (bkt0 ++ [e]) ++ tableBlocks rest) _
        rw [hbb, List.append_assoc, List.append_assoc]
        exact List.Perm.append_left _ (List.perm_append_comm)
      · rw [addSigEntry_cons_ne k0 bkt0 rest w e hk, tableBlocks_cons,
          tableBlocks_cons, List.append_assoc]
        exact List.Perm.append_left _ (ih w e)

lemma buildTable_go_blocks :
    ∀ (l : List (Nat × Int × List Nat)) (t : Table) (c : Nat),
      List.Perm
        (tableBlocks ((l.foldl (fun acc bs =>
          (addSigEntry acc.1 bs.2.1 (SigEntry.pair bs.1 bs.2.2), acc.2 + 1))
          (t, c)).1))
        (tableBlocks t ++ l.map Prod.fst) := by
  intro l
  induction l with
  | nil => intro t c; simp
  | cons bs l ih =>
    intro t c
    rw [List.foldl_cons]
    refine (ih _ _).trans ?_
    rw [List.map_cons]
    have h1 := addSigEntry_blocks t bs.2.1 (SigEntry.pair bs.1 bs.2.2)
    refine (List.Perm.append_right _ h1).trans ?_
    rw [List.append_assoc]
    exact List.Perm.refl _

lemma buildTable_blocks (sigs : List (Int × List Nat)) :
    List.Perm (tableBlocks (buildTable sigs).1) (List.range sigs.length) := by
  have h := buildTable_go_blocks sigs.enum [] 0
  rw [buildTable]
  refine h.trans ?_
  rw [List.enum_map_fst]
  rfl

lemma buildTable_num (sigs : List (Int × List Nat)) :
    (buildTable sigs).2 = sigs.length := by
  have go : ∀ (l : List (Nat × Int × List Nat)) (t : Table) (c : Nat),
      ((l.foldl (fun acc bs =>
        (addSigEntry acc.1 bs.2.1 (SigEntry.pair bs.1 bs.2.2), acc.2 + 1))
        (t, c)).2) = c + l.length := by
    intro l
    induction l with
    | nil => intro t c; simp
    | cons bs l ih => intro t c; rw [List.foldl_cons, ih]; simp; omega
  rw [buildTable, go]
  simp

end TableInv2

section InstrFold
open PySync Pyzsync

lemma getD_set_ne {α : Type} (l : List (Option α)) (i j : Nat) (v : Option α)
    (h : i ≠ j) : (l.set i v).getD j none = l.getD j none := by
  rw [List.getD_eq_getElem?_getD, List.getD_eq_getElem?_getD,
    List.getElem?_set_ne h]

lemma getD_set_self {α : Type} (l : List (Option α)) (i : Nat) (v : Option α)
    (h : i < l.length) : (l.set i v).getD i none = v := by
  rw [List.getD_eq_getElem?_getD, List.getElem?_set_self h]
  rfl

lemma tableFlat_cons (kv : Int × List SigEntry) (rest : Table) :
    tableFlat (kv :: rest) = kv.2.map (fun e => (kv.1, e)) ++ tableFlat rest := by
  simp [tableFlat]

lemma tableFlat_blocks :
    ∀ t : Table, (tableFlat t).map (fun we => we.2.block) = tableBlocks t := by
  intro t
  induction t with
  | nil => rfl
  | cons kv rest ih =>
    rw [tableFlat_cons, List.map_append, ih, tableBlocks_cons]
    congr 1
    rw [List.map_map]
    rfl

lemma get_instructions_eq_fold (B : Nat) :
    ∀ (t : Table) (acc : List (Option Slot) × List Nat),
      t.foldl (fun acc kv => kv.2.foldl (fun a e => instrStep B a kv.1 e) acc) acc
        = (tableFlat t).foldl (instrFoldStep B) acc := by
  intro t
  induction t with
  | nil => intro acc; rfl
  | cons kv rest ih =>
    intro acc
    rw [List.foldl_cons, ih, tableFlat_cons, List.foldl_append, List.foldl_map]
    rfl

lemma instrFold_length (B : Nat) :
    ∀ (L : List (Int × SigEntry)) (acc : List (Option Slot) × List Nat),
      ((L.foldl (instrFoldStep B) acc).1).length = acc.1.length := by
  intro L
  induction L with
  | nil => intro acc; rfl
  | cons we L ih =>
    intro acc
    rw [List.foldl_cons, ih]
    match we with
    | (w, .pair blk st) => simp [instrFoldStep, instrStep]
    | (w, .triple blk st lo) => simp [instrFoldStep, instrStep]

lemma instrFold_req (B : Nat) :
    ∀ (L : List (Int × SigEntry)) (acc : List (Option Slot) × List Nat),
      (L.foldl (instrFoldStep B) acc).2 = acc.2 ++ L.filterMap entryReq := by
  intro L
  induction L with
  | nil => intro acc; simp
  | cons we L ih =>
    intro acc
    rw [List.foldl_cons, ih]
    match we with
    | (w, .pair blk st) =>
      show (instrStep B acc w (.pair blk st)).2 ++ _ = _
      rw [instrStep]
      rw [List.filterMap_cons]
      show (acc.2 ++ [blk]) ++ _ = _
      rw [List.append_assoc]
      rfl
    | (w, .triple blk st lo) =>
      show (instrStep B acc w (.triple blk st lo)).2 ++ _ = _
      rw [instrStep, List.filterMap_cons]
      rfl

lemma instrFold_untouched (B : Nat) :
    ∀ (L : List (Int × SigEntry)) (acc : List (Option Slot) × List Nat)
      (i : Nat), i ∉ L.map (fun we => we.2.block) →
      ((L.foldl (instrFoldStep B) acc).1).getD i none = acc.1.getD i none := by
  intro L
  induction L with
  | nil => intro acc i _; rfl
  | cons we L ih =>
    intro acc i hi
    simp only [List.map_cons, List.mem_cons] at hi
    push_neg at hi
    rw [List.foldl_cons, ih _ i hi.2]
    match we with
    | (w, .pair blk st) =>
      show ((acc.1.set blk _).getD i none) = _
      exact getD_set_ne acc.1 blk i _ (fun he => hi.1 he.symm)
    | (w, .triple blk st lo) =>
      show ((acc.1.set blk _).getD i none) = _
      exact getD_set_ne acc.1 blk i _ (fun he => hi.1 he.symm)

end InstrFold

section InstrFold2
open PySync Pyzsync

lemma filterMap_entryReq_sublist :
    ∀ L : List (Int × SigEntry),
      List.Sublist (L.filterMap entryReq) (L.map (fun we => we.2.block)) := by
  intro L
  induction L with
  | nil => exact List.Sublist.refl []
  | cons we L ih =>
    match we with
    | (w, .pair blk st) =>
      rw [List.filterMap_cons]
      exact List.Sublist.cons₂ blk ih
    | (w, .triple blk st lo) =>
      rw [List.filterMap_cons]
      exact List.Sublist.cons blk ih

lemma instrFold_unique (B : Nat) :
    ∀ (L : List (Int × SigEntry)) (acc : List (Option Slot) × List Nat)
      (i : Nat), (L.map (fun we => we.2.block)).count i = 1 →
      i < acc.1.length →
      (∃ w st, ((L.foldl (instrFoldStep B) acc).1).getD i none =
          some (.tup (i * B) w st) ∧
        ((L.foldl (instrFoldStep B) acc).2).count i = acc.2.count i + 1) ∨
      (∃ lo, ((L.foldl (instrFoldStep B) acc).1).getD i none =
          some (.offs lo) ∧
        ((L.foldl (instrFoldStep B) acc).2).count i = acc.2.count i) := by
  intro L
  induction L with
  | nil => intro acc i h _; simp at h
  | cons we L ih =>
    intro acc i hcount hlen
    rw [List.map_cons, List.count_cons] at hcount
    simp only [beq_iff_eq] at hcount
    by_cases hblk : we.2.block = i
    · have hL : (L.map (fun we => we.2.block)).count i = 0 := by
        rw [if_pos hblk] at hcount; omega
      have hnotin : i ∉ L.map (fun we => we.2.block) := by
        intro hmem
        have := List.count_pos_iff.mpr hmem
        omega
      have hreqzero : (L.filterMap entryReq).count i = 0 := by
        have hle := (filterMap_entryReq_sublist L).count_le i
        omega
      rw [List.foldl_cons, instrFold_untouched B L _ i hnotin, instrFold_req B L _]
      match we, hblk with
      | (w, .pair blk st), hblk =>
        have hbi : blk = i := hblk
        subst hbi
        dsimp only [instrFoldStep, instrStep]
        left
        refine ⟨w, st, ?_, ?_⟩
        · rw [getD_set_self acc.1 blk _ hlen]
        · rw [List.count_append, List.count_append, hreqzero]
          simp
      | (w, .triple blk st lo), hblk =>
        have hbi : blk = i := hblk
        subst hbi
        dsimp only [instrFoldStep, instrStep]
        right
        refine ⟨lo, ?_, ?_⟩
        · rw [getD_set_self acc.1 blk _ hlen]
        · rw [List.count_append, hreqzero]
          omega
    · have hcount2 : (L.map (fun we => we.2.block)).count i = 1 := by
        rw [if_neg hblk] at hcount; omega
      have hlen2 : i < ((instrFoldStep B acc we).1).length := by
        match we with
        | (w, .pair blk st) => simpa [instrFoldStep, instrStep] using hlen
        | (w, .triple blk st lo) => simpa [instrFoldStep, instrStep] using hlen
      have hacc2 : ((instrFoldStep B acc we).2).count i = acc.2.count i := by
        match we with
        | (w, .pair blk st) =>
          dsimp only [instrFoldStep, instrStep]
          rw [List.count_append]
          have hz : List.count i [blk] = 0 := by
            simp only [List.count_cons, List.count_nil, beq_iff_eq]
            rw [if_neg (show ¬(blk = i) from fun he => hblk he)]
          omega
        | (w, .triple blk st lo) => rfl
      have hm := ih (instrFoldStep B acc we) i hcount2 hlen2
      rw [List.foldl_cons]
      rw [hacc2] at hm
      exact hm

lemma blueprint_partition (B n : Nat) (t : Table)
    (hperm : List.Perm (tableBlocks t) (List.range n)) :
    ∀ i, i < n →
      (∃ w st, (get_instructions t B n).1.getD i none =
          some (.tup (i * B) w st) ∧ (get_instructions t B n).2.count i = 1) ∨
      (∃ lo, (get_instructions t B n).1.getD i none = some (.offs lo) ∧
        (get_instructions t B n).2.count i = 0) := by
  intro i hi
  have hcount : ((tableFlat t).map (fun we => we.2.block)).count i = 1 := by
    rw [tableFlat_blocks, hperm.count_eq]
    exact List.count_eq_one_of_mem (List.nodup_range n) (List.mem_range.mpr hi)
  have hlen : i < (List.replicate n (none : Option Slot)).length := by simp [hi]
  have h := instrFold_unique B (tableFlat t) (List.replicate n none, []) i hcount hlen
  rw [get_instructions, get_instructions_eq_fold]
  simpa using h

end InstrFold2

section ClaimC6
open PySync Pyzsync

lemma zsync_delta_ok (fuel : Nat) (data : List Nat) (closed : Bool)
    (sigs : List (Int × List Nat)) (B : Nat)
    (instr : List (Option Slot)) (toReq : List Nat)
    (hrun : zsync_delta fuel data closed sigs B = some (.ok (instr, toReq))) :
    ∃ sf : ZState,
      zsyncRun fuel data closed sigs B = some (.ok sf) ∧
      instr = (get_instructions sf.table B (buildTable sigs).2).1 ∧
      toReq = (get_instructions sf.table B (buildTable sigs).2).2 ∧
      tableBlocks sf.table = tableBlocks (buildTable sigs).1 := by
  rw [zsync_delta] at hrun
  revert hrun
  cases hz : zsyncRun fuel data closed sigs B with
  | none => intro h; cases h
  | some r =>
    cases r with
    | error e => intro h; simp [Except.map] at h
    | ok sf =>
      intro h
      simp only [Option.map_some, Except.map] at h
      injection h with h1
      injection h1 with h2
      refine ⟨sf, rfl, by rw [h2], by rw [h2], ?_⟩
      have := zsyncLoop_table B fuel (zsyncInit data closed sigs B) sf hz
      exact this

/-- C6: for every completed blueprint scan with `numBlocks` signature
entries, each block index below `numBlocks` lands in exactly one of the two
outcomes: its slot resolved to a candidate byte offset and the index absent
from `toRequest`, or its slot still the `(i * blocksize, weak, strong)`
tuple and the index occurring exactly once in `toRequest`. -/
theorem C6_block_in_exactly_one_outcome (fuel : Nat) (data : List Nat)
    (closed : Bool) (sigs : List (Int × List Nat)) (B : Nat)
    (instr : List (Option Slot)) (toReq : List Nat)
    (hrun : zsync_delta fuel data closed sigs B = some (.ok (instr, toReq))) :
    ∀ i < sigs.length,
      (∃ lo, instr.getD i none = some (.offs lo) ∧ i ∉ toReq) ∨
      (∃ w st, instr.getD i none = some (.tup (i * B) w st) ∧
        toReq.count i = 1) := by
  intro i hi
  obtain ⟨sf, hz, hinstr, hreq, htb⟩ :=
    zsync_delta_ok fuel data closed sigs B instr toReq hrun
  have hperm : List.Perm (tableBlocks sf.table) (List.range sigs.length) :=
    htb ▸ buildTable_blocks sigs
  have hpart := blueprint_partition B sigs.length sf.table hperm i hi
  rw [buildTable_num] at hinstr hreq
  rcases hpart with ⟨w, st, hs, hc⟩ | ⟨lo, hs, hc⟩
  · right
    exact ⟨w, st, by rw [hinstr]; exact hs, by rw [hreq]; exact hc⟩
  · left
    refine ⟨lo, by rw [hinstr]; exact hs, ?_⟩
    rw [hreq]
    exact List.count_eq_zero.mp hc

/-- Witness for C6: baseline `[1,2,3,4,5,6]` (blocks `[1,2,3]` and
`[4,5,6]`), candidate `[1,2,3]` — block 0 resolves at offset 0, block 1
stays unresolved and is requested once. -/
theorem C6_block_in_exactly_one_outcome_witness :
    (∃ lo, (([some (Slot.offs 0),
        some (Slot.tup 3 1835023 (md5 [4, 5, 6]))] : List (Option Slot)).getD
          1 none) = some (Slot.offs lo) ∧ (1 : Nat) ∉ ([1] : List Nat)) ∨
    (∃ w st, (([some (Slot.offs 0),
        some (Slot.tup 3 1835023 (md5 [4, 5, 6]))] : List (Option Slot)).getD
          1 none) = some (Slot.tup (1 * 3) w st) ∧
      ([1] : List Nat).count 1 = 1) :=
  C6_block_in_exactly_one_outcome 20 [1, 2, 3] false
    (block_checksums 3 [1, 2, 3, 4, 5, 6]) 3
    [some (Slot.offs 0), some (Slot.tup 3 1835023 (md5 [4, 5, 6]))] [1]
    (by decide) 1 (by decide)

end ClaimC6

section ClaimC7
open PySync Pyzsync

lemma tableBlocks_append (t1 t2 : Table) :
    tableBlocks (t1 ++ t2) = tableBlocks t1 ++ tableBlocks t2 := by
  simp [tableBlocks]

lemma buildTable_nodup_go :
    ∀ (l : List (Nat × Int × List Nat)) (t : Table) (c : Nat),
      (∀ w ∈ l.map (fun bs => bs.2.1), w ∉ t.map Prod.fst) →
      (l.map (fun bs => bs.2.1)).Nodup →
      tableBlocks ((l.foldl (fun acc bs =>
          (addSigEntry acc.1 bs.2.1 (SigEntry.pair bs.1 bs.2.2), acc.2 + 1))
          (t, c)).1) = tableBlocks t ++ l.map Prod.fst := by
  intro l
  induction l with
  | nil => intro t c _ _; simp
  | cons bs l ih =>
    intro t c hdisj hnd
    simp only [List.map_cons, List.nodup_cons] at hnd
    have hw : bs.2.1 ∉ t.map Prod.fst := by
      apply hdisj
      simp
    have hadd : addSigEntry t bs.2.1 (SigEntry.pair bs.1 bs.2.2) =
        t ++ [(bs.2.1, [SigEntry.pair bs.1 bs.2.2])] := by
      rw [addSigEntry, findVal_eq_none t bs.2.1 hw]
      exact setVal_not_found t bs.2.1 _ (findVal_eq_none t bs.2.1 hw)
    rw [List.foldl_cons]
    dsimp only
    rw [hadd]
    rw [ih (t ++ [(bs.2.1, [SigEntry.pair bs.1 bs.2.2])]) (c + 1) ?_ hnd.2]
    · rw [tableBlocks_append]
      simp [tableBlocks, bucketBlocks, SigEntry.block, List.append_assoc]
    · intro w hwl
      rw [List.map_append]
      simp only [List.mem_append]
      push_neg
      refine ⟨hdisj w (by simp [hwl]), ?_⟩
      simp only [List.map_cons, List.map_nil, List.mem_singleton]
      intro he
      exact hnd.1 (by rw [← he]; exact hwl)

lemma buildTable_nodup (sigs : List (Int × List Nat))
    (h : (sigs.map Prod.fst).Nodup) :
    tableBlocks (buildTable sigs).1 = List.range sigs.length := by
  have hmap : sigs.enum.map (fun bs => bs.2.1) = sigs.map Prod.fst := by
    have h1 : sigs.enum.map (fun bs => bs.2.1) =
        (sigs.enum.map Prod.snd).map Prod.fst := by
      rw [List.map_map]; rfl
    rw [h1, List.enum_map_snd]
  rw [buildTable, buildTable_nodup_go sigs.enum [] 0
    (by rw [hmap]; intro w _; simp) (by rw [hmap]; exact h)]
  rw [List.enum_map_fst]
  rfl

/-- The `to_request` list produced from a table: the blocks of the
still-unmatched entries, in table iteration order. -/
lemma get_instructions_req (t : Table) (B n : Nat) :
    (get_instructions t B n).2 = (tableFlat t).filterMap entryReq := by
  rw [get_instructions, get_instructions_eq_fold, instrFold_req]
  rfl

/-- C7 as stated is false: with a weak-checksum collision between
non-adjacent baseline blocks (blocks 0 and 2 of `[0,2,1,0,0,5,1,0,2]`
share weak checksum 327683 with block 1 between them), scanning an empty
candidate leaves all three blocks unresolved and `to_request` comes out in
dict-bucket order `[0, 2, 1]`, which is not strictly increasing. -/
theorem C7_counterexample :
    (zsync_delta 20 [] false
        (block_checksums 3 [0, 2, 1, 0, 0, 5, 1, 0, 2]) 3).map
      (fun r => r.map Prod.snd) = some (.ok [0, 2, 1]) ∧
    ¬ List.Sorted (· < ·) ([0, 2, 1] : List Nat) := by
  constructor
  · decide
  · decide

end ClaimC7

section ClaimC7b
open PySync Pyzsync

/-- C7 amended: `toRequest` holds exactly the unresolved block indices
(membership iff the slot still holds the unresolved tuple), and under the
proviso that the signature weak checksums are pairwise distinct it is
strictly increasing. -/
theorem C7_toRequest_sorted_unresolved (fuel : Nat) (data : List Nat)
    (closed : Bool) (sigs : List (Int × List Nat)) (B : Nat)
    (instr : List (Option Slot)) (toReq : List Nat)
    (hnodup : (sigs.map Prod.fst).Nodup)
    (hrun : zsync_delta fuel data closed sigs B = some (.ok (instr, toReq))) :
    List.Sorted (· < ·) toReq ∧
    (∀ i, i < sigs.length →
      (i ∈ toReq ↔ ∃ w st, instr.getD i none = some (.tup (i * B) w st))) := by
  obtain ⟨sf, hz, hinstr, hreq, htb⟩ :=
    zsync_delta_ok fuel data closed sigs B instr toReq hrun
  have htbr : tableBlocks sf.table = List.range sigs.length := by
    rw [htb, buildTable_nodup sigs hnodup]
  have hsub : List.Sublist toReq (List.range sigs.length) := by
    rw [hreq, get_instructions_req]
    have h1 := filterMap_entryReq_sublist (tableFlat sf.table)
    rw [tableFlat_blocks, htbr] at h1
    exact h1
  have hperm : List.Perm (tableBlocks sf.table) (List.range sigs.length) := by
    rw [htbr]
  constructor
  · exact List.Pairwise.sublist hsub (List.sorted_lt_range sigs.length)
  · intro i hi
    have hpart := blueprint_partition B sigs.length sf.table hperm i hi
    rw [buildTable_num] at hinstr hreq
    rcases hpart with ⟨w, st, hs, hc⟩ | ⟨lo, hs, hc⟩
    · constructor
      · intro _
        exact ⟨w, st, by rw [hinstr]; exact hs⟩
      · intro _
        rw [hreq]
        apply List.count_pos_iff.mp
        omega
    · constructor
      · intro hmem
        rw [hreq] at hmem
        have := List.count_pos_iff.mpr hmem
        omega
      · rintro ⟨w, st, hws⟩
        rw [hinstr, hs] at hws
        simp at hws

/-- Witness for the amended C7: baseline `[1,2,3,4,5,6]` has distinct weak
checksums, candidate `[1,2,3]`, so `to_request = [1]` is sorted. -/
theorem C7_toRequest_sorted_unresolved_witness :
    List.Sorted (· < ·) ([1] : List Nat) :=
  (C7_toRequest_sorted_unresolved 20 [1, 2, 3] false
    (block_checksums 3 [1, 2, 3, 4, 5, 6]) 3
    [some (Slot.offs 0), some (Slot.tup 3 1835023 (md5 [4, 5, 6]))] [1]
    (by decide) (by decide)).1

end ClaimC7b

section ClaimC10
open PySync Pyzsync

lemma get_instructions_len (t : Table) (B n : Nat) :
    (get_instructions t B n).1.length = n := by
  rw [get_instructions, get_instructions_eq_fold, instrFold_length]
  simp

lemma merge_spec (B : Nat) :
    ∀ (reqs : List Nat) (instr : List (Option Slot)) (src : List Nat),
      reqs.Nodup →
      (∀ r ∈ reqs, r < instr.length ∧
        ∃ w st, instr.getD r none = some (.tup (r * B) w st)) →
      ∃ final,
        merge_instructions_blocks instr (get_blocks src reqs B) B = .ok final ∧
        final.length = instr.length ∧
        (∀ i ∈ reqs, final.getD i none =
          some (.content ((src.drop (i * B)).take B))) ∧
        (∀ i, i ∉ reqs → final.getD i none = instr.getD i none) := by
  intro reqs
  induction reqs with
  | nil =>
    intro instr src _ _
    exact ⟨instr, rfl, rfl, by simp, fun _ _ => rfl⟩
  | cons r rest ih =>
    intro instr src hnd hslots
    simp only [List.nodup_cons] at hnd
    obtain ⟨hrlen, w, st, hslot⟩ := hslots r (by simp)
    have hstep : merge_instructions_blocks instr (get_blocks src (r :: rest) B) B
        = merge_instructions_blocks
            (instr.set r (some (.content ((src.drop (r * B)).take B))))
            (get_blocks src rest B) B := by
      show merge_instructions_blocks instr
          ((r, (src.drop (r * B)).take B) :: get_blocks src rest B) B = _
      rw [merge_instructions_blocks]
      dsimp only
      rw [if_pos hrlen, hslot]
      dsimp only [slotIndex0]
      rw [if_pos rfl]
    have hrest : ∀ r' ∈ rest,
        r' < (instr.set r
          (some (.content ((src.drop (r * B)).take B)))).length ∧
        ∃ w' st', (instr.set r
            (some (.content ((src.drop (r * B)).take B)))).getD r' none =
          some (.tup (r' * B) w' st') := by
      intro r' hr'
      obtain ⟨h1, w', st', h2⟩ := hslots r' (by simp [hr'])
      refine ⟨by simpa using h1, w', st', ?_⟩
      rw [getD_set_ne _ _ _ _ (fun he : r = r' => hnd.1 (by rw [he]; exact hr'))]
      exact h2
    obtain ⟨final, hm, hlen, hmem, hout⟩ :=
      ih (instr.set r (some (.content ((src.drop (r * B)).take B)))) src
        hnd.2 hrest
    refine ⟨final, ?_, ?_, ?_, ?_⟩
    · rw [hstep]; exact hm
    · rw [hlen]; simp
    · intro i hi
      rcases List.mem_cons.mp hi with rfl | hi2
      · rw [hout i hnd.1]
        exact getD_set_self instr i _ hrlen
      · exact hmem i hi2
    · intro i hi
      have hir : i ≠ r := fun he => hi (by rw [he]; simp)
      have hirest : i ∉ rest := fun hm2 => hi (by simp [hm2])
      rw [hout i hirest]
      exact getD_set_ne instr r i _ (fun he => hir he.symm)

/-- C10: a blueprint produced by a completed scan has the slot shape
`patchstream` and `merge_instructions_blocks` rely on — each slot below
`numBlocks` is either an `int` candidate offset or a 3-tuple whose first
component is `i * blocksize` — and merging it with the `get_blocks` output
for exactly the `to_request` indices replaces exactly the still-unresolved
slots with the fetched block bytes and leaves every other slot unchanged. -/
theorem C10_slot_shape_and_merge (fuel : Nat) (data : List Nat)
    (closed : Bool) (sigs : List (Int × List Nat)) (B : Nat)
    (instr : List (Option Slot)) (toReq : List Nat)
    (hrun : zsync_delta fuel data closed sigs B = some (.ok (instr, toReq))) :
    (∀ i < sigs.length,
      (∃ lo, instr.getD i none = some (.offs lo)) ∨
      (∃ w st, instr.getD i none = some (.tup (i * B) w st))) ∧
    ∀ src, ∃ final,
      merge_instructions_blocks instr (get_blocks src toReq B) B = .ok final ∧
      final.length = instr.length ∧
      (∀ i ∈ toReq, final.getD i none =
        some (.content ((src.drop (i * B)).take B))) ∧
      (∀ i, i ∉ toReq → final.getD i none = instr.getD i none) := by
  obtain ⟨sf, hz, hinstr, hreq, htb⟩ :=
    zsync_delta_ok fuel data closed sigs B instr toReq hrun
  have hperm : List.Perm (tableBlocks sf.table) (List.range sigs.length) :=
    htb ▸ buildTable_blocks sigs
  rw [buildTable_num] at hinstr hreq
  have hsubmem : ∀ i ∈ toReq, i < sigs.length := by
    intro i hi
    rw [hreq, get_instructions_req] at hi
    have hs := (filterMap_entryReq_sublist (tableFlat sf.table)).subset hi
    rw [tableFlat_blocks] at hs
    exact List.mem_range.mp (hperm.mem_iff.mp hs)
  have hcountle : ∀ i, toReq.count i ≤ 1 := by
    intro i
    rw [hreq, get_instructions_req]
    have h1 := (filterMap_entryReq_sublist (tableFlat sf.table)).count_le i
    rw [tableFlat_blocks] at h1
    have h2 : (tableBlocks sf.table).count i = (List.range sigs.length).count i :=
      hperm.count_eq i
    have h3 : (List.range sigs.length).count i ≤ 1 :=
      List.nodup_iff_count_le_one.mp (List.nodup_range sigs.length) i
    omega
  have hnd : toReq.Nodup := List.nodup_iff_count_le_one.mpr hcountle
  have hshape : ∀ i, i < sigs.length →
      (∃ lo, instr.getD i none = some (.offs lo)) ∨
      (∃ w st, instr.getD i none = some (.tup (i * B) w st)) := by
    intro i hi
    rcases blueprint_partition B sigs.length sf.table hperm i hi with
      ⟨w, st, hs, _⟩ | ⟨lo, hs, _⟩
    · right; exact ⟨w, st, by rw [hinstr]; exact hs⟩
    · left; exact ⟨lo, by rw [hinstr]; exact hs⟩
  refine ⟨hshape, ?_⟩
  intro src
  apply merge_spec B toReq instr src hnd
  intro r hr
  have hrn := hsubmem r hr
  constructor
  · rw [hinstr, get_instructions_len]
    exact hrn
  · rcases blueprint_partition B sigs.length sf.table hperm r hrn with
      ⟨w, st, hs, _⟩ | ⟨lo, hs, hc⟩
    · exact ⟨w, st, by rw [hinstr]; exact hs⟩
    · exfalso
      rw [hreq] at hr
      have := List.count_pos_iff.mpr hr
      omega

/-- Witness for C10 at the concrete scan of candidate `[1,2,3]` against
baseline `[1,2,3,4,5,6]` (blocksize 3): block 1 is unresolved, and merging
with the block fetched from the baseline fills exactly that slot. -/
theorem C10_slot_shape_and_merge_witness :
    ∃ final,
      merge_instructions_blocks
        [some (Slot.offs 0), some (Slot.tup 3 1835023 (md5 [4, 5, 6]))]
        (get_blocks [1, 2, 3, 4, 5, 6] [1] 3) 3 = .ok final ∧
      final.length =
        ([some (Slot.offs 0),
          some (Slot.tup 3 1835023 (md5 [4, 5, 6]))] : List (Option Slot)).length ∧
      (∀ i ∈ ([1] : List Nat), final.getD i none =
        some (.content (([1, 2, 3, 4, 5, 6].drop (i * 3)).take 3))) ∧
      (∀ i, i ∉ ([1] : List Nat) → final.getD i none =
        ([some (Slot.offs 0),
          some (Slot.tup 3 1835023 (md5 [4, 5, 6]))] : List (Option Slot)).getD
          i none) :=
  (C10_slot_shape_and_merge 20 [1, 2, 3] false
    (block_checksums 3 [1, 2, 3, 4, 5, 6]) 3
    [some (Slot.offs 0), some (Slot.tup 3 1835023 (md5 [4, 5, 6]))] [1]
    (by decide)).2 [1, 2, 3, 4, 5, 6]

end ClaimC10
section ClaimC9
open PySync Pyzsync

lemma zsyncStep_empty (B : Nat) (s s1 : ZState) (ht : s.table = [])
    (hs1 : zsyncSeed B s = s1) :
    zsyncStep B s =
      (if s1.alive then
        match s1.stream.read1 with
        | some br =>
          shiftTail B { s1 with stream := br.2,
                                window := s1.window ++ [br.1],
                                mtch := false } br.1
        | none =>
          shiftTail B { s1 with tailsize := s1.stream.pos % B,
                                alive := false,
                                mtch := false } 0
      else shiftTail B { s1 with mtch := false } 0) := by
  have hfv : findVal (zsyncSeed B s).table (zsyncSeed B s).checksum = none := by
    rw [show (zsyncSeed B s).table = [] from by rw [zsyncSeed_table]; exact ht]
    rfl
  rw [zsyncStep, hfv, hs1]
end ClaimC9

section ClaimC9b
open PySync Pyzsync

lemma zsyncSeed_of_dead (B : Nat) (s : ZState) (h : s.alive = false) :
    zsyncSeed B s = s := by
  rw [zsyncSeed, if_neg]
  simp [h]

lemma zsyncSeed_measure (B : Nat) (s : ZState) :
    (zsyncSeed B s).alive = s.alive ∧
    (zsyncSeed B s).stream.data = s.stream.data ∧
    ((zsyncSeed B s).stream.data.length - (zsyncSeed B s).stream.pos) +
        (zsyncSeed B s).window.length ≤
      (s.stream.data.length - s.stream.pos) + s.window.length := by
  rw [zsyncSeed]
  split
  · refine ⟨rfl, rfl, ?_⟩
    dsimp [ByteStream.read]
    rw [List.length_take, List.length_drop]
    omega
  · exact ⟨rfl, rfl, le_rfl⟩

lemma read1_some (s : ByteStream) (br : Nat × ByteStream)
    (h : s.read1 = some br) :
    br.2.data = s.data ∧ br.2.pos = s.pos + 1 ∧ s.pos < s.data.length := by
  rw [ByteStream.read1] at h
  revert h
  cases htake : (s.data.drop s.pos).take 1 with
  | nil => intro h; cases h
  | cons b rest =>
    intro h
    cases h
    refine ⟨rfl, rfl, ?_⟩
    by_contra hge
    push_neg at hge
    rw [List.drop_eq_nil_of_le hge] at htake
    cases htake

lemma shiftTail_cases (B : Nat) (s : ZState) (nb : Nat) :
    (s.alive = false ∧ s.window.length ≤ s.tailsize ∧
      shiftTail B s nb = .brk s) ∨
    (∃ s', shiftTail B s nb = .cont s' ∧ s'.table = s.table ∧
      s'.alive = s.alive ∧ s'.stream = s.stream ∧ s'.tailsize = s.tailsize ∧
      s'.window.length + 1 = s.window.length) ∨
    (s.window = [] ∧ s.alive = true ∧
      shiftTail B s nb = .err .indexError) := by
  rw [shiftTail]
  split
  · rename_i hcond
    exact Or.inl ⟨hcond.1, hcond.2, rfl⟩
  · rename_i hcond
    match hw : s.window with
    | [] =>
      refine Or.inr (Or.inr ⟨rfl, ?_, rfl⟩)
      by_contra halive
      apply hcond
      refine ⟨?_, ?_⟩
      · cases ha : s.alive
        · rfl
        · exact absurd ha halive
      · rw [hw]
        simp
    | oldbyte :: rest =>
      exact Or.inr (Or.inl ⟨_, rfl, rfl, rfl, rfl, rfl, by simp⟩)

end ClaimC9b

section ClaimC9c
open PySync Pyzsync

lemma zmeasure_alive (s : ZState) (h : s.alive = true) :
    zmeasure s = (s.stream.data.length - s.stream.pos) + s.window.length + 2 := by
  rw [zmeasure, if_pos h]

lemma zmeasure_dead (s : ZState) (h : s.alive = false) :
    zmeasure s = s.window.length := by
  rw [zmeasure, if_neg]
  rw [h]
  simp

lemma zsyncLoop_empty (B : Nat) :
    ∀ (m : Nat) (s : ZState), s.table = [] → zmeasure s ≤ m →
      ∃ sf, zsyncLoop B (m + 1) s = some (.ok sf) ∧ sf.table = [] := by
  intro m
  induction m with
  | zero =>
    intro s ht hm
    have halive : s.alive = false := by
      cases ha : s.alive
      · rfl
      · rw [zmeasure_alive s ha] at hm; omega
    rw [zmeasure_dead s halive] at hm
    rw [zsyncLoop,
      zsyncStep_empty B s s ht (zsyncSeed_of_dead B s halive),
      if_neg (by rw [halive]; simp)]
    rcases shiftTail_cases B { s with mtch := false } 0 with
      ⟨_, _, heq⟩ | ⟨s', heq, hts', hal', _, _, hlen⟩ | ⟨hw, hal, heq⟩
    · rw [heq]
      exact ⟨_, rfl, ht⟩
    · exfalso
      have : s.window.length = 0 := by omega
      rw [show ({ s with mtch := false } : ZState).window = s.window from rfl]
        at hlen
      omega
    · exact absurd hal (by show ¬(s.alive = true); rw [halive]; simp)
  | succ m ih =>
    intro s ht hm
    rw [zsyncLoop]
    cases halive : s.alive with
    | false =>
      rw [zmeasure_dead s halive] at hm
      rw [zsyncStep_empty B s s ht (zsyncSeed_of_dead B s halive),
        if_neg (by rw [halive]; simp)]
      rcases shiftTail_cases B { s with mtch := false } 0 with
        ⟨_, _, heq⟩ | ⟨s', heq, hts', hal', _, _, hlen⟩ | ⟨hw, hal, heq⟩
      · rw [heq]
        exact ⟨_, rfl, ht⟩
      · rw [heq]
        have haf : s'.alive = false := by rw [hal']; exact halive
        apply ih s' (by rw [hts']; exact ht)
        rw [zmeasure_dead s' haf]
        have hwl : s'.window.length + 1 = s.window.length := hlen
        omega
      · exact absurd hal (by show ¬(s.alive = true); rw [halive]; simp)
    | true =>
      obtain ⟨hal1, hdata1, hmease⟩ := zsyncSeed_measure B s
      rw [zmeasure_alive s halive] at hm
      rw [zsyncStep_empty B s (zsyncSeed B s) ht rfl,
        if_pos (by rw [hal1]; exact halive)]
      have htseed : (zsyncSeed B s).table = [] := by
        rw [zsyncSeed_table]; exact ht
      cases hr : (zsyncSeed B s).stream.read1 with
      | some br =>
        obtain ⟨hbd, hbp, hplt⟩ := read1_some _ br hr
        dsimp only
        rcases shiftTail_cases B
            { zsyncSeed B s with stream := br.2,
                                 window := (zsyncSeed B s).window ++ [br.1],
                                 mtch := false } br.1 with
          ⟨hdead, _, _⟩ | ⟨s', heq, hts', hal', hstr', _, hlen⟩ |
          ⟨hw, _, _⟩
        · exact absurd hdead (by
            show ¬((zsyncSeed B s).alive = false)
            rw [hal1, halive]; simp)
        · dsimp only at heq
          rw [heq]
          have hat : s'.alive = true := by
            rw [hal']
            show (zsyncSeed B s).alive = true
            rw [hal1]; exact halive
          apply ih s' (by rw [hts']; exact htseed)
          rw [zmeasure_alive s' hat]
          have hsd : s'.stream.data = s.stream.data := by
            rw [hstr']
            show br.2.data = _
            rw [hbd, hdata1]
          have hsp : s'.stream.pos = (zsyncSeed B s).stream.pos + 1 := by
            rw [hstr']
            exact hbp
          have hwl : s'.window.length + 1 =
              (zsyncSeed B s).window.length + 1 := by
            have h2 : s'.window.length + 1 =
                ((zsyncSeed B s).window ++ [br.1]).length := hlen
            simpa using h2
          rw [hdata1] at hmease hplt
          rw [hsd, hsp]
          omega
        · exact absurd hw (by simp)
      | none =>
        dsimp only
        rcases shiftTail_cases B
            { zsyncSeed B s with tailsize := (zsyncSeed B s).stream.pos % B,
                                 alive := false,
                                 mtch := false } 0 with
          ⟨_, _, heq⟩ | ⟨s', heq, hts', hal', hstr', _, hlen⟩ | ⟨hw, hal, _⟩
        · dsimp only at heq
          rw [heq]
          exact ⟨_, rfl, htseed⟩
        · dsimp only at heq
          rw [heq]
          have haf : s'.alive = false := hal'
          apply ih s' (by rw [hts']; exact htseed)
          rw [zmeasure_dead s' haf]
          have hwl : s'.window.length + 1 = (zsyncSeed B s).window.length :=
            hlen
          rw [hdata1] at hmease
          omega
        · exact absurd hal (by simp)

end ClaimC9c

section ClaimC9d
open PySync Pyzsync

/-- C9: with an empty baseline (no signature entries) the blueprint scan of
any candidate stream terminates — fuel `length + blocksize + 3` always
suffices — and returns the empty instruction array and empty request
list. -/
theorem C9_empty_baseline_terminates (data : List Nat) (closed : Bool)
    (B : Nat) (hB : 0 < B) :
    zsync_delta (data.length + B + 3) data closed [] B =
      some (.ok ([], [])) := by
  obtain ⟨sf, hloop, htf⟩ := zsyncLoop_empty B (data.length + B + 2)
    (zsyncInit data closed [] B) rfl
    (by rw [zmeasure_alive _ rfl]
        show data.length - 0 + 0 + 2 ≤ data.length + B + 2
        omega)
  rw [zsync_delta, zsyncRun,
    show data.length + B + 3 = (data.length + B + 2) + 1 from rfl, hloop]
  simp only [Option.map, Except.map, htf]
  rfl

/-- Witness for C9 at candidate `[5, 6]`, blocksize 3. -/
theorem C9_empty_baseline_terminates_witness :
    0 < 3 ∧ zsync_delta (List.length [5, 6] + 3 + 3) [5, 6] false [] 3 =
      some (.ok ([], [])) :=
  ⟨by decide, C9_empty_baseline_terminates [5, 6] false 3 (by decide)⟩

end ClaimC9d

section ClaimC1a
open PySync Pyrsync2

lemma getD_map_lt {α β : Type} (l : List α) (f : α → β) (k : Nat) (d : β)
    (d2 : α) (h : k < l.length) : (l.map f).getD k d = f (l.getD k d2) := by
  rw [List.getD_eq_getElem _ d (by simpa using h),
    List.getD_eq_getElem l d2 h, List.getElem_map]

lemma chunksOf_getD (B : Nat) (hB : 0 < B) (d0 : List Nat) :
    ∀ k, k < (chunksOf B d0).length →
      (chunksOf B d0).getD k [] = (d0.drop (k * B)).take B := by
  suffices h : ∀ (m : Nat) (d : List Nat), d.length ≤ m → ∀ k,
      k < (chunksOf B d).length →
      (chunksOf B d).getD k [] = (d.drop (k * B)).take B from
    h d0.length d0 le_rfl
  intro m
  induction m with
  | zero =>
    intro d hd k
    have : d = [] := List.eq_nil_of_length_eq_zero (by omega)
    subst this
    simp [chunksOf_nil]
  | succ m ih =>
    intro d hd k hk
    match d with
    | [] => simp [chunksOf_nil] at hk
    | x :: xs =>
      simp only [List.length_cons] at hd
      rw [chunksOf_cons B hB _ (by simp)] at hk ⊢
      match k with
      | 0 => simp
      | k + 1 =>
        simp only [List.getD_cons_succ]
        rw [ih ((x :: xs).drop B)
          (by rw [List.length_drop]; simp only [List.length_cons]; omega) k
          (by simpa using hk)]
        rw [List.drop_drop]
        have harith : B + k * B = (k + 1) * B := by ring
        rw [harith]

lemma chunksOf_getD_mem (B : Nat) (d0 : List Nat) (k : Nat)
    (h : k < (chunksOf B d0).length) :
    (chunksOf B d0).getD k [] ∈ chunksOf B d0 := by
  rw [List.getD_eq_getElem _ [] h]
  exact List.getElem_mem h

lemma chunksOf_pos_lt (B : Nat) (hB : 0 < B) (d0 : List Nat) (k : Nat)
    (hk : k < (chunksOf B d0).length) : k * B < d0.length := by
  have hne := (chunksOf_shape B hB d0 _ (chunksOf_getD_mem B d0 k hk)).1
  rw [chunksOf_getD B hB d0 k hk] at hne
  by_contra hge
  push_neg at hge
  rw [List.drop_eq_nil_of_le hge] at hne
  simp at hne

lemma sum_len_le (B : Nat) :
    ∀ ls : List (List Nat), (∀ x ∈ ls, x.length ≤ B) →
      (ls.map List.length).sum ≤ ls.length * B := by
  intro ls
  induction ls with
  | nil => intro _; simp
  | cons x l ih =>
    intro h
    simp only [List.map_cons, List.sum_cons, List.length_cons]
    have h1 : x.length ≤ B := h x (by simp)
    have h2 := ih (fun y hy => h y (by simp [hy]))
    have harith : (l.length + 1) * B = l.length * B + B := by ring
    omega

lemma chunksOf_total_le (B : Nat) (hB : 0 < B) (d0 : List Nat) :
    d0.length ≤ (chunksOf B d0).length * B := by
  conv_lhs => rw [← chunksOf_join B hB d0]
  rw [List.length_flatten]
  exact sum_len_le B _ (fun x hx => (chunksOf_shape B hB d0 x hx).2)

lemma findVal_some_mem {α : Type} :
    ∀ (l : List (Int × α)) (w : Int) (v : α),
      findVal l w = some v → (w, v) ∈ l := by
  intro l
  induction l with
  | nil => intro w v h; cases h
  | cons kv rest ih =>
    intro w v h
    rw [findVal] at h
    split at h
    · cases h
      rename_i hk
      rw [List.mem_cons]
      left
      rw [← hk]
    · rw [List.mem_cons]
      right
      exact ih w v h

lemma setVal_nodup_go :
    ∀ (l : List (Nat × Int × List Nat)) (d : RDict),
      (∀ w ∈ l.map (fun bs => bs.2.1), w ∉ d.map Prod.fst) →
      (l.map (fun bs => bs.2.1)).Nodup →
      l.foldl (fun d bs => setVal d bs.2.1 (bs.1, bs.2.2)) d =
        d ++ l.map (fun bs => (bs.2.1, (bs.1, bs.2.2))) := by
  intro l
  induction l with
  | nil => intro d _ _; simp
  | cons bs l ih =>
    intro d hdisj hnd
    simp only [List.map_cons, List.nodup_cons] at hnd
    have hw : bs.2.1 ∉ d.map Prod.fst := hdisj bs.2.1 (by simp)
    rw [List.foldl_cons]
    rw [setVal_not_found d bs.2.1 _ (findVal_eq_none d bs.2.1 hw)]
    rw [ih (d ++ [(bs.2.1, (bs.1, bs.2.2))]) ?_ hnd.2]
    · simp [List.append_assoc]
    · intro w hwl
      rw [List.map_append, List.mem_append]
      push_neg
      refine ⟨hdisj w (by simp [hwl]), ?_⟩
      simp only [List.map_cons, List.map_nil, List.mem_singleton]
      intro he
      exact hnd.1 (by rw [← he]; exact hwl)

lemma buildRDict_nodup (sigs : List (Int × List Nat))
    (h : (sigs.map Prod.fst).Nodup) :
    buildRDict sigs =
      sigs.enum.map (fun bs => (bs.2.1, (bs.1, bs.2.2))) := by
  have hmap : sigs.enum.map (fun bs => bs.2.1) = sigs.map Prod.fst := by
    have h1 : sigs.enum.map (fun bs => bs.2.1) =
        (sigs.enum.map Prod.snd).map Prod.fst := by
      rw [List.map_map]; rfl
    rw [h1, List.enum_map_snd]
  rw [buildRDict, setVal_nodup_go sigs.enum []
    (by rw [hmap]; intro w _; simp) (by rw [hmap]; exact h)]
  rfl

lemma findVal_enumFrom :
    ∀ (l : List (Int × List Nat)) (off k : Nat), k < l.length →
      (l.map Prod.fst).Nodup →
      findVal ((List.enumFrom off l).map (fun bs => (bs.2.1, (bs.1, bs.2.2))))
          (l.getD k (0, [])).1 =
        some (off + k, (l.getD k (0, [])).2) := by
  intro l
  induction l with
  | nil => intro off k hk; simp at hk
  | cons ws rest ih =>
    intro off k hk hnd
    simp only [List.map_cons, List.nodup_cons] at hnd
    match k with
    | 0 =>
      show findVal ((ws.1, (off, ws.2)) :: _) ws.1 = _
      rw [findVal, if_pos rfl]
      simp
    | k + 1 =>
      simp only [List.getD_cons_succ]
      have hmem : (rest.getD k (0, [])).1 ∈ rest.map Prod.fst := by
        apply List.mem_map_of_mem Prod.fst
        rw [List.getD_eq_getElem rest (0, ([] : List Nat))
          (by simpa using hk)]
        exact List.getElem_mem _
      show findVal ((ws.1, (off, ws.2)) :: _) _ = _
      rw [findVal, if_neg (fun he : ws.1 = (rest.getD k (0, [])).1 =>
        hnd.1 (by rw [he]; exact hmem))]
      rw [ih (off + 1) k (by simpa using hk) hnd.2]
      congr 2
      omega

end ClaimC1a

section ClaimC1b
open PySync Pyrsync2

lemma read_eq (s : ByteStream) (n : Nat) :
    s.read n = ((s.data.drop s.pos).take n,
      { s with pos := s.pos + ((s.data.drop s.pos).take n).length }) := rfl

lemma rsyncSeed_eq (B : Nat) (s : RState) (hm : s.mtch = true)
    (ha : s.alive = true) :
    rsyncSeed B s =
      { s with stream := (s.stream.read B).2, window := (s.stream.read B).1,
               windowOffset := 0,
               checksum := (weakchecksum (s.stream.read B).1).1,
               a := (weakchecksum (s.stream.read B).1).2.1,
               b := (weakchecksum (s.stream.read B).1).2.2 } := by
  rw [rsyncSeed, if_pos ⟨hm, ha⟩]

lemma rsyncStep_matched (dict : RDict) (B mb : Nat) (s : RState)
    (idx : Nat) (st : List Nat)
    (hm : s.mtch = true) (ha : s.alive = true) (hc : s.stream.closed = false)
    (hcb : s.currentBlock = [])
    (hfv : findVal dict
      (weakchecksum ((s.stream.data.drop s.stream.pos).take B)).1 =
        some (idx, st))
    (hst : md5 ((s.stream.data.drop s.stream.pos).take B) = st) :
    ∃ s', rsyncStep dict B mb s = .cont s' ∧ s'.mtch = true ∧
      s'.alive = true ∧ s'.stream.closed = false ∧
      s'.stream.data = s.stream.data ∧
      s'.stream.pos = s.stream.pos +
        ((s.stream.data.drop s.stream.pos).take B).length ∧
      s'.currentBlock = [] ∧ s'.out = s.out ++ [.blockref idx] := by
  rw [rsyncStep, rsyncSeed_eq B s hm ha]
  dsimp only
  rw [read_eq]
  dsimp only
  rw [hfv]
  dsimp only
  rw [List.drop_zero]
  rw [if_pos hst]
  rw [if_pos ha]
  rw [if_neg (by rw [hc]; simp)]
  refine ⟨_, rfl, rfl, ha, hc, rfl, rfl, rfl, ?_⟩
  rw [hcb]
  simp

lemma rsyncElse_exhaust (B mb : Nat) (s : RState)
    (ha : s.alive = true) (hread : s.stream.data.drop s.stream.pos = [])
    (hw : s.window = []) (hcb : s.currentBlock = []) :
    ∃ sf, rsyncElse B mb s = .brk sf ∧ sf.out = s.out ∧
      sf.currentBlock = [] := by
  rw [rsyncElse, if_pos ha]
  have hr1 : s.stream.read1 = none := by
    rw [ByteStream.read1, hread]
    rfl
  rw [hr1]
  dsimp only
  rw [rshiftTail]
  rw [if_pos (by refine ⟨rfl, ?_⟩; rw [hw]; simp)]
  refine ⟨_, rfl, ?_, ?_⟩
  · rw [hcb]
    simp
  · show s.window.drop s.windowOffset = []
    rw [hw]
    exact List.drop_nil

lemma rsyncStep_terminal (dict : RDict) (B mb : Nat) (s : RState)
    (hm : s.mtch = true) (ha : s.alive = true)
    (hread : s.stream.data.drop s.stream.pos = [])
    (hcb : s.currentBlock = [])
    (hno : ∀ p : Nat × List Nat,
      findVal dict (weakchecksum []).1 = some p → md5 [] ≠ p.2) :
    ∃ sf, rsyncStep dict B mb s = .brk sf ∧ sf.out = s.out ∧
      sf.currentBlock = [] := by
  rw [rsyncStep, rsyncSeed_eq B s hm ha]
  dsimp only
  rw [read_eq]
  dsimp only
  rw [hread, List.take_nil]
  cases hfv : findVal dict (weakchecksum ([] : List Nat)).1 with
  | none =>
    dsimp only
    exact rsyncElse_exhaust B mb _ ha hread rfl hcb
  | some p =>
    dsimp only
    rw [List.drop_zero]
    rw [if_neg (fun he => hno p hfv he)]
    exact rsyncElse_exhaust B mb _ ha hread rfl hcb

end ClaimC1b

section ClaimC1c
open PySync Pyrsync2

lemma block_checksums_fst_nodup (B : Nat) (bs : List Nat)
    (hnodup : ((chunksOf B bs).map (fun blk => (weakchecksum blk).1)).Nodup) :
    ((block_checksums B bs).map Prod.fst).Nodup := by
  rw [block_checksums_eq_map, List.map_map]
  exact hnodup

lemma findVal_buildRDict (B : Nat) (hB : 0 < B) (bs : List Nat) (k : Nat)
    (hk : k < (chunksOf B bs).length)
    (hnodup : ((chunksOf B bs).map (fun blk => (weakchecksum blk).1)).Nodup) :
    findVal (buildRDict (block_checksums B bs))
        (weakchecksum ((chunksOf B bs).getD k [])).1 =
      some (k, md5 ((chunksOf B bs).getD k [])) := by
  have hsig := block_checksums_eq_map B bs
  have hlen : k < (block_checksums B bs).length := by
    rw [hsig, List.length_map]; exact hk
  have hnd := block_checksums_fst_nodup B bs hnodup
  have hg : (block_checksums B bs).getD k (0, []) =
      ((weakchecksum ((chunksOf B bs).getD k [])).1,
        md5 ((chunksOf B bs).getD k [])) := by
    rw [hsig]
    exact getD_map_lt _ _ k _ [] hk
  have h := findVal_enumFrom (block_checksums B bs) 0 k hlen hnd
  rw [hg] at h
  rw [buildRDict_nodup _ hnd]
  have henum : (block_checksums B bs).enum =
      List.enumFrom 0 (block_checksums B bs) := rfl
  rw [henum, h]
  simp

lemma chunk_pos_step (B : Nat) (hB : 0 < B) (bs : List Nat) (k : Nat)
    (hk : k < (chunksOf B bs).length) :
    k * B + ((bs.drop (k * B)).take B).length = min ((k + 1) * B) bs.length := by
  rw [List.length_take, List.length_drop]
  have h1 : k * B < bs.length := chunksOf_pos_lt B hB bs k hk
  have h2 : (k + 1) * B = k * B + B := by ring
  rw [h2]
  omega

lemma rsyncLoop_blockrefs (B mb : Nat) (hB : 0 < B) (bs : List Nat)
    (hnodup : ((chunksOf B bs).map (fun blk => (weakchecksum blk).1)).Nodup)
    (hzero : ∀ blk ∈ chunksOf B bs,
      (weakchecksum blk).1 = 0 → md5 blk ≠ md5 []) :
    ∀ (j k : Nat) (s : RState), j = (chunksOf B bs).length + 1 - k →
      k ≤ (chunksOf B bs).length →
      s.mtch = true → s.alive = true → s.stream.closed = false →
      s.stream.data = bs → s.stream.pos = min (k * B) bs.length →
      s.currentBlock = [] →
      s.out = (List.range k).map RInstr.blockref →
      ∃ sf, rsyncLoop (buildRDict (block_checksums B bs)) B mb j s =
          some (.ok sf) ∧
        sf.out = (List.range (chunksOf B bs).length).map RInstr.blockref ∧
        sf.currentBlock = [] := by
  have hnd := block_checksums_fst_nodup B bs hnodup
  have hno : ∀ p : Nat × List Nat,
      findVal (buildRDict (block_checksums B bs))
        (weakchecksum ([] : List Nat)).1 = some p → md5 [] ≠ p.2 := by
    intro p hp hmd
    have hmem := findVal_some_mem _ _ _ hp
    rw [buildRDict_nodup _ hnd] at hmem
    rw [List.mem_map] at hmem
    obtain ⟨x, hx, hxe⟩ := hmem
    have hx2 : x.2 ∈ block_checksums B bs := by
      have hm2 := List.mem_map_of_mem Prod.snd hx
      rwa [List.enum_map_snd] at hm2
    rw [block_checksums_eq_map, List.mem_map] at hx2
    obtain ⟨blk, hblk, hblke⟩ := hx2
    have he1 := congrArg Prod.fst hxe
    have he2 := congrArg Prod.snd hxe
    have hb1 := congrArg Prod.fst hblke
    have hb2 := congrArg Prod.snd hblke
    have h0 : (weakchecksum blk).1 = 0 := by
      have hc1 : (weakchecksum blk).1 = (weakchecksum ([] : List Nat)).1 := by
        rw [show (weakchecksum blk).1 = x.2.1 from hb1]
        exact he1
      rw [hc1]
      decide
    have h2 : p.2 = md5 blk := by
      rw [← show (x.1, x.2.2) = p from he2]
      exact hb2.symm
    have h3 : md5 [] = md5 blk := by rw [hmd, h2]
    exact hzero blk hblk h0 h3.symm
  intro j
  induction j with
  | zero =>
    intro k s hj hk
    omega
  | succ j ih =>
    intro k s hj hk hm ha hc hdata hpos hcb hout
    rcases Nat.lt_or_ge k (chunksOf B bs).length with hklt | hkge
    · -- a full-window match step: emit blockref k and advance one block
      have hposk : s.stream.pos = k * B := by
        rw [hpos, Nat.min_eq_left (chunksOf_pos_lt B hB bs k hklt).le]
      have hwin : (s.stream.data.drop s.stream.pos).take B =
          (chunksOf B bs).getD k [] := by
        rw [hdata, hposk, chunksOf_getD B hB bs k hklt]
      have hfv : findVal (buildRDict (block_checksums B bs))
          (weakchecksum ((s.stream.data.drop s.stream.pos).take B)).1 =
            some (k, md5 ((s.stream.data.drop s.stream.pos).take B)) := by
        rw [hwin]
        exact findVal_buildRDict B hB bs k hklt hnodup
      obtain ⟨s', hstep, hm', ha', hc', hd', hp', hcb', hout'⟩ :=
        rsyncStep_matched (buildRDict (block_checksums B bs)) B mb s k _
          hm ha hc hcb hfv rfl
      rw [rsyncLoop, hstep]
      have hd2 : s'.stream.data = bs := by rw [hd', hdata]
      have hp2 : s'.stream.pos = min ((k + 1) * B) bs.length := by
        rw [hp', hposk, hdata]
        exact chunk_pos_step B hB bs k hklt
      have hout2 : s'.out = (List.range (k + 1)).map RInstr.blockref := by
        rw [hout', hout, List.range_succ, List.map_append]
        rfl
      exact ih (k + 1) s' (by omega) (by omega) hm' ha' hc' hd2 hp2 hcb' hout2
    · -- the stream is exhausted: the step breaks with the final state
      have hkn : k = (chunksOf B bs).length := Nat.le_antisymm hk hkge
      have hposL : s.stream.pos = bs.length := by
        rw [hpos, hkn, Nat.min_eq_right (chunksOf_total_le B hB bs)]
      have hread : s.stream.data.drop s.stream.pos = [] := by
        rw [hdata, hposL]
        exact List.drop_length bs
      obtain ⟨sf, hstep, houtf, hcbf⟩ :=
        rsyncStep_terminal (buildRDict (block_checksums B bs)) B mb s
          hm ha hread hcb hno
      rw [rsyncLoop, hstep]
      refine ⟨sf, rfl, ?_, hcbf⟩
      rw [houtf, hout, hkn]

lemma map_getD_range {α : Type} (L : List α) (d : α) :
    (List.range L.length).map (fun k => L.getD k d) = L := by
  apply List.ext_getElem
  · simp
  · intro i h1 h2
    simp only [List.getElem_map, List.getElem_range]
    rw [List.getD_eq_getElem L d h2]

lemma patch_blockrefs (B : Nat) (hB : 0 < B) (bs : List Nat) :
    ∀ l : List Nat, patchstream bs (l.map RInstr.blockref) B =
      .ok (l.map (fun k => (bs.drop (k * B)).take B)).flatten := by
  intro l
  induction l with
  | nil => rfl
  | cons k l ih =>
    rw [List.map_cons, patchstream, if_pos (Nat.pos_iff_ne_zero.mp hB), ih]
    rw [List.map_cons, List.flatten_cons]

/-- **C1** counterexample to the claim as stated.  With baseline =
candidate = [0,2,1,1,0,2] and blocksize 3 the two blocks [0,2,1] and
[1,0,2] share the weak checksum 327683, so the dict comprehension of
`rsyncdelta` (pyrsync2.py lines 189-192) keeps only the *last* block's
(index, strong) pair under that key.  The first window's strong hash then
fails against block 1's digest, the whole first block is byte-shifted out
as a literal, and the delta is [lit [0,2,1], blockref 1] — a non-empty
literal even though the length 6 is an exact multiple of the blocksize. -/
theorem C1_counterexample :
    rsyncdelta 10 [0,2,1,1,0,2] false (block_checksums 3 [0,2,1,1,0,2]) 3
        4096 =
      some (.ok [RInstr.lit [0,2,1], RInstr.blockref 1]) ∧
    ([0,2,1,1,0,2] : List Nat).length % 3 = 0 ∧
    hasNonemptyLit [RInstr.lit [0,2,1], RInstr.blockref 1] = true := by
  refine ⟨by decide, by decide, by decide⟩

/-- **C1** (amended): for every baseline `bs` and blocksize `B > 0` whose
blocks have pairwise distinct weak checksums, and no block both has weak
checksum 0 (the empty window's checksum) and the strong hash of the empty
byte string, running `rsyncdelta` with candidate = baseline yields exactly
one block reference per baseline block and no literal, and `patchstream`
applied to that delta against the baseline reproduces the baseline's bytes
exactly.  (Without the distinct-weak-checksum hypothesis the claim is
false: see the counterexample above.) -/
theorem C1_identity_roundtrip (B mb : Nat) (bs : List Nat) (hB : 0 < B)
    (hnodup : ((chunksOf B bs).map (fun blk => (weakchecksum blk).1)).Nodup)
    (hzero : ∀ blk ∈ chunksOf B bs,
      (weakchecksum blk).1 = 0 → md5 blk ≠ md5 []) :
    rsyncdelta ((chunksOf B bs).length + 1) bs false (block_checksums B bs)
        B mb =
      some (.ok ((List.range (chunksOf B bs).length).map RInstr.blockref)) ∧
    patchstream bs
        ((List.range (chunksOf B bs).length).map RInstr.blockref) B =
      .ok bs := by
  constructor
  · obtain ⟨sf, hloop, hout, hcb⟩ :=
      rsyncLoop_blockrefs B mb hB bs hnodup hzero
        ((chunksOf B bs).length + 1) 0 (rsyncInit bs false)
        (by omega) (Nat.zero_le _) rfl rfl rfl rfl (by simp [rsyncInit]) rfl rfl
    rw [rsyncdelta, hloop]
    simp [Except.map, hout, hcb]
  · rw [patch_blockrefs B hB bs]
    congr 1
    have h1 : (List.range (chunksOf B bs).length).map
        (fun k => (bs.drop (k * B)).take B) =
        (List.range (chunksOf B bs).length).map
        (fun k => (chunksOf B bs).getD k []) := by
      apply List.map_congr_left
      intro k hk
      rw [List.mem_range] at hk
      exact (chunksOf_getD B hB bs k hk).symm
    rw [h1, map_getD_range, chunksOf_join B hB bs]

/-- Witness for C1: baseline [1,2,3,4,5,6] with blocksize 3 satisfies the
hypotheses (weak checksums 655366 and 1835023 are distinct and non-zero),
and the round trip holds at those concrete inputs. -/
theorem C1_identity_roundtrip_witness :
    (0 < 3 ∧
      ((chunksOf 3 [1,2,3,4,5,6]).map
        (fun blk => (weakchecksum blk).1)).Nodup ∧
      (∀ blk ∈ chunksOf 3 [1,2,3,4,5,6],
        (weakchecksum blk).1 = 0 → md5 blk ≠ md5 [])) ∧
    (rsyncdelta ((chunksOf 3 [1,2,3,4,5,6]).length + 1) [1,2,3,4,5,6] false
        (block_checksums 3 [1,2,3,4,5,6]) 3 4096 =
      some (.ok ((List.range (chunksOf 3 [1,2,3,4,5,6]).length).map
        RInstr.blockref)) ∧
     patchstream [1,2,3,4,5,6]
        ((List.range (chunksOf 3 [1,2,3,4,5,6]).length).map RInstr.blockref)
        3 = .ok [1,2,3,4,5,6]) :=
  ⟨⟨by decide, by decide, by decide⟩,
    C1_identity_roundtrip 3 4096 [1,2,3,4,5,6] (by decide) (by decide)
      (by decide)⟩

end ClaimC1c
